import Mathlib

/-! # URL shortener service: code generation, resolution and click statistics

A shallow embedding of `app/utils/utils.go`, `redisstore/redis-store.go`,
`app/services/domains/dtos/dtos.go` and `app/services/domains/service.go`.

The Go functions are rendered as pure functions over explicit state: the Redis keyspace
behind `redisstore.RedisService`, the `urls` collection behind the MongoDB client, and the
clock readings taken by `time.Now()`, which are arguments.  A Go result `(value, error)` is
a pair whose second component is `none` for a `nil` error.  Goroutines started with `go`
are returned as values (`domains.Task`) and applied separately.  Messages sent to the chat
are returned as values as well.

Integers.  Counter values and chat identifiers are `Int`.  `redis.Incr` keeps its result
inside the signed 64-bit range, Go's `int` is taken to be 64 bits wide (so `int(id)` is the
identity), and the arithmetic of the encoder on a value of that range stays far below
`2 ^ 63`, so nothing wraps around.  Click counters are `Int` and would need `2 ^ 63` clicks
to overflow.  Instants are natural numbers counted from the zero `time.Time`; the rounding
of stored instants to milliseconds is not modelled.

Libraries and servers that are not part of the sources (the hashids encoder, Redis, MongoDB,
the user-agent parser, the HTTP client) are modelled or taken as parameters; the definitions
concerned say so.
-/

/-- Errors surfaced by the collaborators of the service. -/
inductive Err where
  | redisNil
  | redisUnavailable
  | redisNotInteger
  | emptyNumbers
  | negativeNumber
  | alphabetTooShort
  | alphabetHasSpace
  | alphabetDuplicate
  | mongoNoDocuments
  | mongoUnavailable
  | network
  | decode
deriving DecidableEq, Repr

/-- Instants, counted in nanoseconds from the zero value of `time.Time`. -/
abbrev Time := Nat

/-- `time.Time.IsZero`. -/
def Time.IsZero (t : Time) : Bool := t == 0

/-- `time.Hour`, a duration in nanoseconds. -/
def Hour : Nat := 3600 * 1000000000

/-- Outcome of a call that may end the process (`log.Fatal` calls `os.Exit(1)`). -/
inductive Run (α : Type) where
  | returned (a : α)
  | exited (e : Err)
deriving Repr

namespace configs

/-- Modelled from the spec: the package `app/configs` is not among the sources; these are the
fields of `configs.Config` read by the functions below, the "process-wide configuration"
holding the encoding salt and the key of the counter. -/
structure Config where
  UrlSalt : String
  RedisCounterKey : String
deriving Repr

end configs

/-! ## The hashids encoder (`github.com/speps/go-hashids`)

The library is not among the sources.  The spec describes what `GenerateShortID` asks of it:
the counter value is encoded "into a string over a 62-character alphabet (A–Z, a–z, 0–9),
padded/expanded to a minimum length (7), using a keyed (salted) reversible encoding".  The
definitions of this namespace follow the published hashids algorithm, function by function
(`NewWithData`, `consistentShuffleInPlace`, `hash`, `EncodeInt64`, `Encode`), and are checked
against its published examples in `published_examples`.  The capacity hint
`maxLengthPerNumber` has no effect on results and is left out; the two floating-point
quotients of `NewWithData` are written as the integer comparisons they amount to.
-/

namespace hashids

/-- Modelled from the spec: the library constant `minAlphabetLength`. -/
def minAlphabetLength : Nat := 16

/-- Modelled from the spec: the library constant `DefaultAlphabet`. -/
def DefaultAlphabet : String := "abcdefghijklmnopqrstuvwxyzABCDEFGHIJKLMNOPQRSTUVWXYZ1234567890"

/-- Modelled from the spec: the library's separators `sepsOriginal`. -/
def sepsOriginal : List Char := "cfhistuCFHISTU".toList

/-- Modelled from the spec: the library type `HashIDData` (alphabet, minimum length, salt). -/
structure HashIDData where
  Alphabet : String
  MinLength : Nat
  Salt : String

/-- Modelled from the spec: the library type `HashID`, the encoder built by `NewWithData`. -/
structure HashID where
  alphabet : List Char
  minLength : Nat
  salt : List Char
  seps : List Char
  guards : List Char
deriving Repr

/-- Modelled from the spec: the assignment `alphabet[i], alphabet[j] = alphabet[j], alphabet[i]`
of the library's shuffle. -/
def swap (l : List Char) (i j : Nat) : List Char :=
  match l[i]?, l[j]? with
  | some a, some b => (l.set i b).set j a
  | _, _ => l

/-- Modelled from the spec: the loop of the library's shuffle, `i` counting down to `1`, with
the running index `v` into the salt and the running sum `p`. -/
def shuffleLoop (salt : List Char) : Nat → Nat → Nat → List Char → List Char
  | 0, _, _, alphabet => alphabet
  | i + 1, v, p, alphabet =>
    let c := (salt.getD v default).toNat
    let p := p + c
    let j := (c + v + p) % (i + 1)
    shuffleLoop salt i ((v + 1) % salt.length) p (swap alphabet (i + 1) j)

/-- Modelled from the spec: the library's `consistentShuffleInPlace`, the salted ("keyed")
reordering of an alphabet. -/
def consistentShuffleInPlace (alphabet salt : List Char) : List Char :=
  if salt.length = 0 then alphabet
  else shuffleLoop salt (alphabet.length - 1) 0 0 alphabet

/-- Modelled from the spec: the first loop of the library's `NewWithData`.  Separators absent
from the alphabet are dropped; those present leave the alphabet. -/
def splitSeps : List Char → List Char → List Char × List Char
  | [], alphabet => ([], alphabet)
  | s :: rest, alphabet =>
    if s ∈ alphabet then
      let r := splitSeps rest (alphabet.erase s)
      (s :: r.1, r.2)
    else splitSeps rest alphabet

/-- Modelled from the spec: the digit loop of the library's `hash`, least significant digit
first, until the quotient is zero.  With at least two characters in the alphabet, fuel
above the input is never used up (`hashLoop_spec`). -/
def hashLoop (alphabet : List Char) : Nat → Nat → List Char → List Char
  | 0, _, result => result
  | fuel + 1, input, result =>
    let result := result ++ [alphabet.getD (input % alphabet.length) default]
    let input := input / alphabet.length
    if input = 0 then result else hashLoop alphabet fuel input result

/-- Modelled from the spec: the library's `hash`, the digits of `input` in base
`len(alphabet)` written with the characters of the alphabet, most significant first. -/
def hash (input : Nat) (alphabet : List Char) : List Char :=
  (hashLoop alphabet (input + 1) input []).reverse

/-- Modelled from the spec: the sum `numbersHash` computed at the start of the library's
`EncodeInt64`. -/
def numbersHash : Nat → List Nat → Nat
  | _, [] => 0
  | i, n :: rest => n % (i + 100) + numbersHash (i + 1) rest

/-- Modelled from the spec: the loop of the library's `EncodeInt64` over the numbers; returns
the final alphabet and the result. -/
def encodeLoop (h : HashID) (lottery : Char) :
    Nat → List Nat → List Char → List Char → List Char × List Char
  | _, [], alphabet, result => (alphabet, result)
  | i, n :: rest, alphabet, result =>
    let buffer := lottery :: (h.salt ++ alphabet)
    let alphabet := consistentShuffleInPlace alphabet (buffer.take alphabet.length)
    let hashBuf := hash n alphabet
    let result := result ++ hashBuf
    if rest.isEmpty then (alphabet, result)
    else
      let m := n % ((hashBuf.getD 0 default).toNat + i)
      encodeLoop h lottery (i + 1) rest alphabet
        (result ++ [h.seps.getD (m % h.seps.length) default])

/-- Modelled from the spec: the padding loop `for len(result) < h.minLength` of the library's
`EncodeInt64` ("padded/expanded to a minimum length").  One round adds a whole alphabet, so
fuel `minLength` is never used up when the alphabet is not empty. -/
def padLoop (minLength : Nat) : Nat → List Char → List Char → List Char
  | 0, _, result => result
  | fuel + 1, alphabet, result =>
    if result.length < minLength then
      let alphabet := consistentShuffleInPlace alphabet alphabet
      let halfLength := alphabet.length / 2
      let result := alphabet.drop halfLength ++ (result ++ alphabet.take halfLength)
      let excess := result.length - minLength
      let result := if 0 < excess then (result.drop (excess / 2)).take minLength else result
      padLoop minLength fuel alphabet result
    else result

/-- Modelled from the spec: the guards the library's `EncodeInt64` puts around a result
shorter than the minimum length. -/
def addGuards (h : HashID) (nh : Nat) (result : List Char) : List Char :=
  if result.length < h.minLength then
    let result :=
      h.guards.getD ((nh + (result.getD 0 default).toNat) % h.guards.length) default :: result
    if result.length < h.minLength then
      result ++ [h.guards.getD ((nh + (result.getD 2 default).toNat) % h.guards.length) default]
    else result
  else result

/-- Modelled from the spec: the library's `EncodeInt64`, the "keyed (salted) reversible
encoding" of a list of numbers. -/
def EncodeInt64 (h : HashID) (numbers : List Int) : Except Err String :=
  if numbers.isEmpty then .error .emptyNumbers
  else if numbers.any (fun n => decide (n < 0)) then .error .negativeNumber
  else
    let nums := numbers.map Int.toNat
    let nh := numbersHash 0 nums
    let lottery := h.alphabet.getD (nh % h.alphabet.length) default
    let r := encodeLoop h lottery 0 nums h.alphabet [lottery]
    .ok (String.mk (padLoop h.minLength h.minLength r.1 (addGuards h nh r.2)))

/-- Modelled from the spec: the library's `Encode`, which converts its `int` arguments to
`int64` and calls `EncodeInt64`. -/
def Encode (h : HashID) (numbers : List Int) : Except Err String :=
  EncodeInt64 h numbers

/-- Modelled from the spec: the library's `NewWithData`: the checks on the alphabet, the
separators and guards taken out of it, and the salted shuffles. -/
def NewWithData (data : HashIDData) : Except Err HashID :=
  if data.Alphabet.utf8ByteSize < minAlphabetLength then .error .alphabetTooShort
  else if ' ' ∈ data.Alphabet.toList then .error .alphabetHasSpace
  else if ¬ data.Alphabet.toList.Nodup then .error .alphabetDuplicate
  else
    let salt := data.Salt.toList
    let r := splitSeps sepsOriginal data.Alphabet.toList
    let seps := consistentShuffleInPlace r.1 salt
    let alphabet := r.2
    let r :=
      if seps.length = 0 ∨ 7 * seps.length < 2 * alphabet.length then
        let sepsLength := (2 * alphabet.length + 6) / 7
        let sepsLength := if sepsLength = 1 then 2 else sepsLength
        if seps.length < sepsLength then
          let diff := sepsLength - seps.length
          (seps ++ alphabet.take diff, alphabet.drop diff)
        else (seps.take sepsLength, alphabet)
      else (seps, alphabet)
    let seps := r.1
    let alphabet := consistentShuffleInPlace r.2 salt
    let guardCount := (alphabet.length + 11) / 12
    if alphabet.length < 3 then
      .ok ⟨alphabet, data.MinLength, salt, seps.drop guardCount, seps.take guardCount⟩
    else
      .ok ⟨alphabet.drop guardCount, data.MinLength, salt, seps, alphabet.take guardCount⟩

end hashids

/-! ## The Redis keyspace behind `redis.Client` (`github.com/go-redis/redis/v8`)

The client library and the server are not among the sources.  The spec describes the
counter as "a single shared, durable, atomically-incrementing counter" and the cache by the
contract `get(code) → (url, found)`, `set(code, url, ttl)`, `delete(code)`, where "`get` on a
missing or expired key returns `found=false`" and "only connectivity failures to the cache
service are surfaced as errors".  The service reaches both through one client, hence one
keyspace.
-/

namespace redis

/-- Modelled from the spec: a cache entry, a value "with an expiration", if any. -/
structure Entry where
  value : String
  expireAt : Option Time
deriving DecidableEq, Repr

/-- Modelled from the spec: the keyspace of the Redis server, shared by the counter and the
cached URLs, and whether the server answers ("connectivity failures"). -/
structure Client where
  reachable : Bool
  entries : String → Option Entry

/-- Modelled from the spec: an entry whose expiry instant has been reached is gone. -/
def live (now : Time) (e : Entry) : Bool :=
  match e.expireAt with
  | none => true
  | some t => decide (now < t)

/-- Modelled from the spec: the live entry under a key ("missing or expired" gives none). -/
def lookup (c : Client) (key : String) (now : Time) : Option Entry :=
  match c.entries key with
  | some e => if live now e then some e else none
  | none => none

/-- Modelled from the spec: the value of a run of decimal digits, for `parseInt64`. -/
def digitsValue : List Char → Nat → Option Nat
  | [], acc => some acc
  | d :: ds, acc => if d.isDigit then digitsValue ds (acc * 10 + (d.toNat - 48)) else none

/-- Modelled from the spec: the integer a stored string stands for when the counter is
incremented: canonical decimal, inside the signed 64-bit range. -/
def parseInt64 (s : String) : Option Int :=
  let inRange (i : Int) : Option Int :=
    if -(2 : Int) ^ 63 ≤ i ∧ i < (2 : Int) ^ 63 then some i else none
  match s.toList with
  | [] => none
  | ['0'] => some 0
  | '0' :: _ => none
  | '-' :: [] => none
  | '-' :: '0' :: _ => none
  | '-' :: ds => (digitsValue ds 0).bind (fun n => inRange (-(n : Int)))
  | ds => (digitsValue ds 0).bind (fun n => inRange (n : Int))

/-- Modelled from the spec: the command `GET`; `redis.Nil` for a "missing or expired key",
another error when the server does not answer. -/
def Get (c : Client) (key : String) (now : Time) : Except Err String :=
  if c.reachable then
    match lookup c key now with
    | some e => .ok e.value
    | none => .error .redisNil
  else .error .redisUnavailable

/-- Modelled from the spec: the command `SET`, which "stores with an explicit TTL"; a zero
expiration stores the key without expiry. -/
def Set (c : Client) (key value : String) (expiration : Nat) (now : Time) :
    Client × Option Err :=
  if c.reachable then
    let e : Entry := ⟨value, if expiration = 0 then none else some (now + expiration)⟩
    ({ c with entries := fun k => if k = key then some e else c.entries k }, none)
  else (c, some .redisUnavailable)

/-- Modelled from the spec: the command `DEL` behind `delete(code)`; the count of removed
keys. -/
def Del (c : Client) (key : String) (now : Time) : Client × Except Err Int :=
  if c.reachable then
    ({ c with entries := fun k => if k = key then none else c.entries k },
      .ok (if (lookup c key now).isSome then 1 else 0))
  else (c, .error .redisUnavailable)

/-- Modelled from the spec: the command `EXISTS` for one key. -/
def Exists (c : Client) (key : String) (now : Time) : Except Err Int :=
  if c.reachable then .ok (if (lookup c key now).isSome then 1 else 0)
  else .error .redisUnavailable

/-- Modelled from the spec: the command `INCR`, the "atomic increment primitive" of the
counter.  An absent key counts from zero; the expiry of the key is kept; a value that is
not an integer, or an increment leaving the 64-bit range, is an error. -/
def Incr (c : Client) (key : String) (now : Time) : Client × Except Err Int :=
  if c.reachable then
    match lookup c key now with
    | none =>
      ({ c with entries := fun k => if k = key then some ⟨"1", none⟩ else c.entries k }, .ok 1)
    | some e =>
      match parseInt64 e.value with
      | none => (c, .error .redisNotInteger)
      | some i =>
        if i + 1 < (2 : Int) ^ 63 then
          ({ c with entries := fun k =>
              if k = key then some ⟨toString (i + 1), e.expireAt⟩ else c.entries k },
            .ok (i + 1))
        else (c, .error .redisNotInteger)
  else (c, .error .redisUnavailable)

end redis

/-! ## `redisstore/redis-store.go` -/

namespace redisstore

structure RedisService where
  Config : configs.Config
  Client : redis.Client

def RedisService.Set (r : RedisService) (key value : String) (expiration : Nat) (now : Time) :
    RedisService × Option Err :=
  let res := redis.Set r.Client key value expiration now
  ({ r with Client := res.1 }, res.2)

def RedisService.Get (r : RedisService) (key : String) (now : Time) : String × Option Err :=
  match redis.Get r.Client key now with
  | .error .redisNil => ("", none)
  | .error e => ("", some e)
  | .ok value => (value, none)

def RedisService.Delete (r : RedisService) (key : String) (now : Time) :
    RedisService × Option Err :=
  match redis.Del r.Client key now with
  | (c, .error e) => ({ r with Client := c }, some e)
  | (c, .ok _) => ({ r with Client := c }, none)

def RedisService.Exists (r : RedisService) (key : String) (now : Time) : Bool × Option Err :=
  match redis.Exists r.Client key now with
  | .error e => (false, some e)
  | .ok count => (decide (count > 0), none)

end redisstore

/-! ## `app/utils/utils.go` -/

namespace utils

def base62Alphabet : String := "ABCDEFGHIJKLMNOPQRSTUVWXYZabcdefghijklmnopqrstuvwxyz0123456789"

/-- Lines 22 to 41 of `GenerateShortID`: the hashids instance and the encoding of `[id]`. -/
def encodeID (salt : String) (id : Int) : String × Option Err :=
  match hashids.NewWithData ⟨base62Alphabet, 7, salt⟩ with
  | .error e => ("", some e)
  | .ok h =>
    match hashids.Encode h [id] with
    | .error e => ("", some e)
    | .ok encoded => (encoded, none)

def GenerateShortID (rs : redisstore.RedisService) (now : Time) :
    redisstore.RedisService × (String × Option Err) :=
  match redis.Incr rs.Client rs.Config.RedisCounterKey now with
  | (c, .error e) => ({ rs with Client := c }, ("", some e))
  | (c, .ok id) => ({ rs with Client := c }, encodeID rs.Config.UrlSalt id)

end utils

/-! ## `app/services/domains/dtos/dtos.go` -/

namespace dtos

structure ShortenedURL where
  ChatID : Int
  Original : String
  Shortened : String
  Clicks : Int
  CreatedAt : Time
  FirstClick : Time
  LastClick : Time
  Countries : List String
  Cities : List String
  Devices : List String
  OS : List String
  Browsers : List String
deriving DecidableEq, Repr

structure IPInfo where
  Status : String
  Country : String
  City : String
  ISP : String
deriving DecidableEq, Repr

end dtos

/-! ## The `urls` collection behind `mongo.Client` (`go.mongodb.org/mongo-driver`)

The driver and the server are not among the sources.  The spec describes the Link Store as
the "durable record of short-code → original-URL mappings and click aggregates", with
`create`, `findByCode`, `deleteByCodeAndOwner` and `recordClick`; the operations below are
the driver calls the service makes for them.  The generated `_id` of a document is read by
no function and is left out of `dtos.ShortenedURL`.
-/

namespace mongo

/-- Modelled from the spec: a query document over the two fields the service filters on,
`shortened` and `chat_id`. -/
structure Filter where
  shortened : Option String
  chat_id : Option Int
deriving DecidableEq, Repr

/-- Modelled from the spec: the update document of `recordClick`: five `$addToSet` values,
the `$inc` of the click counter, the `$set` of last-click and, optionally, of first-click. -/
structure Update where
  addCountry : String
  addCity : String
  addDevice : String
  addOS : String
  addBrowser : String
  incClicks : Int
  setLastClick : Time
  setFirstClick : Option Time
deriving DecidableEq, Repr

/-- Modelled from the spec: the Link Store; the collection in insertion order, and whether
the server answers. -/
structure Client where
  reachable : Bool
  urls : List dtos.ShortenedURL
deriving DecidableEq, Repr

/-- Modelled from the spec: whether a document satisfies a query document. -/
def Filter.matches (f : Filter) (d : dtos.ShortenedURL) : Bool :=
  (match f.shortened with
    | some u => decide (d.Shortened = u)
    | none => true) &&
  (match f.chat_id with
    | some i => decide (d.ChatID = i)
    | none => true)

/-- Modelled from the spec: the operator `$addToSet`, "set-union semantics — adding an
already-present value is a no-op". -/
def addToSet (l : List String) (v : String) : List String :=
  if v ∈ l then l else l ++ [v]

/-- Modelled from the spec: one document after the update operators have been applied to
it, as "one logically atomic update". -/
def Update.apply (u : Update) (d : dtos.ShortenedURL) : dtos.ShortenedURL :=
  { d with
    Countries := addToSet d.Countries u.addCountry
    Cities := addToSet d.Cities u.addCity
    Devices := addToSet d.Devices u.addDevice
    OS := addToSet d.OS u.addOS
    Browsers := addToSet d.Browsers u.addBrowser
    Clicks := d.Clicks + u.incClicks
    LastClick := u.setLastClick
    FirstClick := match u.setFirstClick with
      | some t => t
      | none => d.FirstClick }

/-- Modelled from the spec: replacement of the first document satisfying `p`, for
`UpdateOne`. -/
def updateFirst (p : dtos.ShortenedURL → Bool) (g : dtos.ShortenedURL → dtos.ShortenedURL) :
    List dtos.ShortenedURL → List dtos.ShortenedURL
  | [] => []
  | d :: ds => if p d then g d :: ds else d :: updateFirst p g ds

/-- Modelled from the spec: the driver call `FindOne(...).Decode`, "`findByCode(code) →
link | NotFound`": the first matching document, or the error `ErrNoDocuments`. -/
def FindOne (c : Client) (f : Filter) : Except Err dtos.ShortenedURL :=
  if c.reachable then
    match c.urls.find? f.matches with
    | some d => .ok d
    | none => .error .mongoNoDocuments
  else .error .mongoUnavailable

/-- Modelled from the spec: the driver call `InsertOne`, "`create(link)`". -/
def InsertOne (c : Client) (d : dtos.ShortenedURL) : Client × Option Err :=
  if c.reachable then ({ c with urls := c.urls ++ [d] }, none)
  else (c, some .mongoUnavailable)

/-- Modelled from the spec: the driver call `DeleteOne`, which removes the first matching
document and reports `DeletedCount`. -/
def DeleteOne (c : Client) (f : Filter) : Client × Except Err Nat :=
  if c.reachable then
    ({ c with urls := c.urls.eraseP f.matches }, .ok (if c.urls.any f.matches then 1 else 0))
  else (c, .error .mongoUnavailable)

/-- Modelled from the spec: the driver call `UpdateOne`, which applies the update to the
first matching document; no match is not an error. -/
def UpdateOne (c : Client) (f : Filter) (u : Update) : Client × Option Err :=
  if c.reachable then ({ c with urls := updateFirst f.matches u.apply c.urls }, none)
  else (c, some .mongoUnavailable)

end mongo

/-! ## The parsed user agent (`github.com/mileusna/useragent`) -/

namespace useragent

/-- Modelled from the spec: the library `github.com/mileusna/useragent` is not among the
sources; these are the predicates of a parsed user agent the service consults ("platform
markers", "OS markers", "browser markers"). -/
structure UserAgent where
  IsAndroid : Bool
  IsIOS : Bool
  IsMacOS : Bool
  IsWindows : Bool
  IsLinux : Bool
  IsChrome : Bool
  IsFirefox : Bool
  IsSafari : Bool
  IsEdge : Bool
  IsOpera : Bool
  IsInternetExplorer : Bool
deriving DecidableEq, Repr

end useragent

/-! ## `app/services/domains/service.go` -/

namespace domains

/-- Modelled from the spec: the collaborators of `GetIPInfo` and `ExtractUserMetadata` that
are not among the sources: the HTTP request to the "geolocation lookup collaborator", which
"returns country, region, city, ISP, coordinates, or an error", the JSON decoder, and the
user-agent parser. -/
structure World where
  httpGet : String → Except Err String
  decodeIPInfo : String → Except Err dtos.IPInfo
  Parse : String → useragent.UserAgent

/-- The fields of `UrlShortnerService` the functions below use: the Redis service and the
MongoDB client. -/
structure UrlShortnerService where
  redisStore : redisstore.RedisService
  Client : mongo.Client

/-- What the handlers read from the request context. -/
structure Request where
  ClientIP : String
  UserAgent : String
deriving DecidableEq, Repr

/-- The HTTP responses of `RedirectShortURL`: `c.Redirect` and `c.AbortWithStatusJSON`. -/
inductive Response where
  | redirect (status : Nat) (location : String)
  | abortJSON (status : Nat) (message : String)
deriving DecidableEq, Repr

/-- The goroutines started by `RedirectShortURL`. -/
inductive Task where
  | processClickStats (shortID : String) (c : Request)
  | cacheSet (key value : String) (expiration : Nat)
deriving DecidableEq, Repr

/-- What `RedirectShortURL` did: the HTTP response, whether the store was queried, and the
goroutines it started. -/
structure RedirectResult where
  response : Response
  storeQueried : Bool
  spawned : List Task
deriving DecidableEq, Repr

/-- The messages sent by `HandleShorten`. -/
inductive ShortenReply where
  | usage
  | failed
  | shortened (shortURL : String)
deriving DecidableEq, Repr

/-- The messages sent by `HandleDelete`. -/
inductive DeleteReply where
  | usage
  | unable
  | deleted
deriving DecidableEq, Repr

def baseURL : String := "http://localhost:8080/"

def GenerateShortURL (s : UrlShortnerService) (chatID : Int) (originalURL : String)
    (now : Time) : UrlShortnerService × (String × Option Err) :=
  match utils.GenerateShortID s.redisStore now with
  | (rs, (_, some err)) => ({ s with redisStore := rs }, ("", some err))
  | (rs, (shortID, none)) =>
    let shortURL := baseURL ++ shortID
    let newURL : dtos.ShortenedURL :=
      { ChatID := chatID
        Original := originalURL
        Shortened := shortURL
        Clicks := 0
        CreatedAt := now
        FirstClick := 0
        LastClick := 0
        Countries := []
        Cities := []
        Devices := []
        OS := []
        Browsers := [] }
    match mongo.InsertOne s.Client newURL with
    | (db, some err) => ({ redisStore := rs, Client := db }, ("", some err))
    | (db, none) => ({ redisStore := rs, Client := db }, (shortURL, none))

def HandleShorten (s : UrlShortnerService) (chatID : Int) (url : String) (now : Time) :
    UrlShortnerService × ShortenReply :=
  if url = "" then (s, .usage)
  else
    match GenerateShortURL s chatID url now with
    | (s, (_, some _)) => (s, .failed)
    | (s, (shortURL, none)) => (s, .shortened shortURL)

def HandleDelete (s : UrlShortnerService) (chatID : Int) (shortURL : String) :
    UrlShortnerService × DeleteReply :=
  if shortURL = "" then (s, .usage)
  else
    match mongo.DeleteOne s.Client ⟨some shortURL, some chatID⟩ with
    | (db, .error _) => ({ s with Client := db }, .unable)
    | (db, .ok deletedCount) =>
      if deletedCount = 0 then ({ s with Client := db }, .unable)
      else ({ s with Client := db }, .deleted)

def RedirectShortURL (s : UrlShortnerService) (shortID : String) (c : Request) (now : Time) :
    RedirectResult :=
  match s.redisStore.Get shortID now with
  | (longURL, err) =>
    if err = none ∧ longURL ≠ "" then
      ⟨.redirect 302 longURL, false, [.processClickStats shortID c]⟩
    else
      match mongo.FindOne s.Client ⟨some (baseURL ++ shortID), none⟩ with
      | .error _ => ⟨.abortJSON 404 "Short URL not found", true, []⟩
      | .ok result =>
        ⟨.redirect 302 result.Original, true,
          [.processClickStats shortID c, .cacheSet shortID result.Original (24 * Hour)]⟩

def GetIPInfo (w : World) (ip : String) : Except Err dtos.IPInfo :=
  match w.httpGet ("http://ip-api.com/json/" ++ ip) with
  | .error e => .error e
  | .ok body =>
    match w.decodeIPInfo body with
    | .error e => .error e
    | .ok ipInfo => .ok ipInfo

/-- `ExtractUserMetadata`.  The initial values "Unknown" of `country` and `city` are
overwritten on the only path that returns; on a failed lookup `log.Fatal` ends the process. -/
def ExtractUserMetadata (w : World) (ip userAgent : String) :
    Run (String × String × String × String × String) :=
  match GetIPInfo w ip with
  | .error e => .exited e
  | .ok ipInfo =>
    let country := ipInfo.Country
    let city := ipInfo.City
    let ua := w.Parse userAgent
    let device :=
      if ua.IsAndroid || ua.IsIOS then "Mobile"
      else if ua.IsMacOS || ua.IsWindows || ua.IsLinux then "Desktop"
      else "Unknown"
    let os :=
      if ua.IsWindows then "Windows"
      else if ua.IsMacOS then "MacOS"
      else if ua.IsLinux then "Linux"
      else if ua.IsAndroid then "Android"
      else if ua.IsIOS then "iOS"
      else "Unknown"
    let browser :=
      if ua.IsChrome then "Chrome"
      else if ua.IsFirefox then "Firefox"
      else if ua.IsSafari then "Safari"
      else if ua.IsEdge then "Edge"
      else if ua.IsOpera then "Opera"
      else if ua.IsInternetExplorer then "Internet Explorer"
      else "Unknown"
    .returned (country, city, device, os, browser)

/-- The update document of `UpdateClickStats`; `now₁` is the clock reading taken when the
document is built, `now₂` the one taken after the lookup of the stored link. -/
def clickUpdate (found : Except Err dtos.ShortenedURL)
    (country city device os browser : String) (now₁ now₂ : Time) : mongo.Update :=
  { addCountry := country
    addCity := city
    addDevice := device
    addOS := os
    addBrowser := browser
    incClicks := 1
    setLastClick := now₁
    setFirstClick := match found with
      | .ok result => if result.FirstClick.IsZero then some now₂ else none
      | .error _ => none }

def UpdateClickStats (s : UrlShortnerService) (shortID country city device os browser : String)
    (now₁ now₂ : Time) : UrlShortnerService × Option Err :=
  let filter : mongo.Filter := ⟨some (baseURL ++ shortID), none⟩
  let found := mongo.FindOne s.Client filter
  let update := clickUpdate found country city device os browser now₁ now₂
  let res := mongo.UpdateOne s.Client filter update
  ({ s with Client := res.1 }, res.2)

def ProcessClickStats (w : World) (s : UrlShortnerService) (shortID : String) (c : Request)
    (now₁ now₂ : Time) : Run UrlShortnerService :=
  match ExtractUserMetadata w c.ClientIP c.UserAgent with
  | .exited e => .exited e
  | .returned (country, city, device, os, browser) =>
    .returned (UpdateClickStats s shortID country city device os browser now₁ now₂).1

end domains

/-! ## Reading a code back -/

namespace hashids

/-- The number whose digits, least significant first, are the positions of `l` in `alphabet`. -/
def unhash (alphabet : List Char) : List Char → Nat
  | [] => 0
  | c :: l => alphabet.indexOf c + alphabet.length * unhash alphabet l

/-- The part of a code between its guards: the whole code when it holds no guard. -/
def middle (guards : List Char) (code : List Char) : List Char :=
  match code.dropWhile (fun c => decide (c ∉ guards)) with
  | [] => code
  | _ :: rest => rest.takeWhile (fun c => decide (c ∉ guards))

/-- The alphabet of `utils.base62Alphabet` once the separators have left it. -/
def base62NoSeps : List Char := "ABDEGJKLMNOPQRVWXYZabdegjklmnopqrvwxyz0123456789".toList

end hashids

namespace hashids

/-- What holds of the instance `GenerateShortID` builds, whatever the salt. -/
structure Base62Instance (h : HashID) : Prop where
  minLength_eq : h.minLength = 7
  alphabet_length : h.alphabet.length = 44
  guards_length : h.guards.length = 4
  alphabet_nodup : h.alphabet.Nodup
  guards_not_mem : ∀ c ∈ h.guards, c ∉ h.alphabet
  alphabet_sub : ∀ c ∈ h.alphabet, c ∈ base62NoSeps
  guards_sub : ∀ c ∈ h.guards, c ∈ base62NoSeps

end hashids

namespace hashids

/-- The first character of a code for the single number `n`. -/
def lotteryOf (h : HashID) (n : Nat) : Char :=
  h.alphabet.getD ((n % 100) % h.alphabet.length) default

/-- The alphabet after the shuffle keyed by the lottery character, the salt and itself. -/
def shuffledFor (h : HashID) (lottery : Char) : List Char :=
  consistentShuffleInPlace h.alphabet ((lottery :: (h.salt ++ h.alphabet)).take h.alphabet.length)

/-- The unpadded code of the single number `n`: the lottery character, then the digits. -/
def core (h : HashID) (n : Nat) : List Char :=
  lotteryOf h n :: hash n (shuffledFor h (lotteryOf h n))

end hashids

namespace hashids

/-- The characters `EncodeInt64` returns for the single number `n`. -/
def code (h : HashID) (n : Nat) : List Char :=
  padLoop h.minLength h.minLength (shuffledFor h (lotteryOf h n))
    (addGuards h (n % 100) (core h n))

end hashids

/-! ## What the cache and the store hold -/

namespace domains

/-- The URL the cache serves for a code: the server answers, the key is present and not
expired, and its value is not the empty string. -/
def cachedURL (s : UrlShortnerService) (shortID : String) (now : Time) : Option String :=
  if s.redisStore.Client.reachable then
    match s.redisStore.Client.entries shortID with
    | some e =>
      match e.expireAt with
      | none => if e.value = "" then none else some e.value
      | some t => if now < t ∧ e.value ≠ "" then some e.value else none
    | none => none
  else none

/-- The stored link whose short URL is built from a code, when the store answers. -/
def storedLink (s : UrlShortnerService) (shortID : String) : Option dtos.ShortenedURL :=
  if s.Client.reachable then
    s.Client.urls.find? (fun d => decide (d.Shortened = baseURL ++ shortID))
  else none

/-- Set-union of one value into a duplicate-free collection. -/
structure IsSetInsert (old : List String) (v : String) (new : List String) : Prop where
  nodup : old.Nodup → new.Nodup
  mem_iff : ∀ x, x ∈ new ↔ x ∈ old ∨ x = v
  of_absent : v ∉ old → new = old ++ [v]
  of_present : v ∈ old → new = old

end domains

/-! ## Sample states -/

namespace domains

/-- A link of chat 42 under the code `87EJpBo`, never clicked. -/
def sampleLink : dtos.ShortenedURL :=
  ⟨42, "https://example.com/page", "http://localhost:8080/87EJpBo", 0, 10, 0, 0,
    [], [], [], [], []⟩

def sampleRequest : Request := ⟨"203.0.113.7", "curl/8.0"⟩

/-- The store holds `sampleLink`; the keyspace is empty. -/
def sampleService : UrlShortnerService :=
  ⟨⟨⟨"", "url:counter"⟩, ⟨true, fun _ => none⟩⟩, ⟨true, [sampleLink]⟩⟩

/-- The store holds `sampleLink` and the cache its URL, written at instant 10 for 24 hours. -/
def cachedService : UrlShortnerService :=
  ⟨⟨⟨"", "url:counter"⟩,
      ⟨true, fun k =>
        if k = "87EJpBo" then some ⟨"https://example.com/page", some (10 + 24 * Hour)⟩
        else none⟩⟩,
    ⟨true, [sampleLink]⟩⟩

/-- A world in which the geolocation request fails. -/
def offlineWorld : World :=
  ⟨fun _ => .error .network, fun _ => .error .decode,
    fun _ => ⟨false, false, false, false, true, false, false, false, false, false, false⟩⟩

end domains

/-! ## Calls of `UpdateClickStats` running side by side

`RedirectShortURL` starts one goroutine per click, so calls of `UpdateClickStats` on one code
overlap.  A call reaches the store twice, with `FindOne` and then with `UpdateOne`; each of
the two acts on the stored document in one step, and steps of different calls interleave.
-/

namespace domains

/-- One call of `UpdateClickStats`: its arguments and its two clock readings, `now₁` taken
when the update document is built and `now₂` taken after the lookup. -/
structure ClickCall where
  country : String
  city : String
  device : String
  os : String
  browser : String
  now₁ : Time
  now₂ : Time
deriving DecidableEq, Repr

/-- How far a call has come: before `FindOne`, between `FindOne` and `UpdateOne` with the
result of the lookup in hand, or returned with the error of `UpdateOne`. -/
inductive ClickPhase where
  | start
  | looked (found : Except Err dtos.ShortenedURL)
  | returned (err : Option Err)

/-- The next step of a call on the collection: the lookup, then the update built from what
the lookup found. -/
def stepClick (shortID : String) (db : mongo.Client) (call : ClickCall) :
    ClickPhase → mongo.Client × ClickPhase
  | .start => (db, .looked (mongo.FindOne db ⟨some (baseURL ++ shortID), none⟩))
  | .looked found =>
    let update := clickUpdate found call.country call.city call.device call.os call.browser
      call.now₁ call.now₂
    let res := mongo.UpdateOne db ⟨some (baseURL ++ shortID), none⟩ update
    (res.1, .returned res.2)
  | .returned err => (db, .returned err)

/-- An interleaving: each entry of the schedule lets the call of that index take its next
step. -/
def runClicks (shortID : String) (calls : List ClickCall) :
    List Nat → mongo.Client × List ClickPhase → mongo.Client × List ClickPhase
  | [], st => st
  | i :: rest, (db, phases) =>
    match calls[i]?, phases[i]? with
    | some call, some phase =>
      let r := stepClick shortID db call phase
      runClicks shortID calls rest (r.1, phases.set i r.2)
    | _, _ => runClicks shortID calls rest (db, phases)

/-- Whether a call has returned. -/
def ClickPhase.isReturned : ClickPhase → Bool
  | .returned _ => true
  | _ => false

/-- Two clicks on `sampleLink`; the four clock readings are taken in the order 100, 101,
102, 103. -/
def sampleCalls : List ClickCall :=
  [⟨"India", "Mumbai", "Mobile", "Android", "Chrome", 100, 102⟩,
   ⟨"USA", "New York", "Desktop", "Windows", "Firefox", 101, 103⟩]

/-- An empty store and a fresh keyspace. -/
def freshService : UrlShortnerService :=
  ⟨⟨⟨"", "url:counter"⟩, ⟨true, fun _ => none⟩⟩, ⟨true, []⟩⟩

/-- A store that does not answer, next to a fresh keyspace. -/
def storeDownService : UrlShortnerService :=
  ⟨⟨⟨"", "url:counter"⟩, ⟨true, fun _ => none⟩⟩, ⟨false, []⟩⟩

/-- A keyspace that does not answer, next to an empty store. -/
def counterDownService : UrlShortnerService :=
  ⟨⟨⟨"", "url:counter"⟩, ⟨false, fun _ => none⟩⟩, ⟨true, []⟩⟩

end domains

/-! ## The shuffle is a permutation -/

namespace hashids

theorem perm_cons_set {α : Type} (x : α) : ∀ (xs : List α) (j : Nat) (h : j < xs.length),
    (xs[j] :: xs.set j x).Perm (x :: xs)
  | y :: ys, 0, _ => by simpa using List.Perm.swap x y ys
  | y :: ys, j + 1, h => by
    have ih := perm_cons_set x ys j (by simpa using h)
    simp only [List.getElem_cons_succ, List.set_cons_succ]
    exact (List.Perm.swap y _ _).trans ((ih.cons y).trans (List.Perm.swap x y ys))

theorem set_set_perm {α : Type} :
    ∀ (l : List α) (i j : Nat) (hi : i < l.length) (hj : j < l.length),
      ((l.set i l[j]).set j l[i]).Perm l
  | x :: xs, 0, 0, _, _ => by simp
  | x :: xs, 0, j + 1, _, hj => by
    simpa using perm_cons_set x xs j (by simpa using hj)
  | x :: xs, i + 1, 0, hi, _ => by
    simpa using perm_cons_set x xs i (by simpa using hi)
  | x :: xs, i + 1, j + 1, hi, hj => by
    simpa using set_set_perm xs i j (by simpa using hi) (by simpa using hj)

theorem swap_perm (l : List Char) (i j : Nat) : (swap l i j).Perm l := by
  unfold swap
  split
  · rename_i a b ha hb
    obtain ⟨hi, rfl⟩ := List.getElem?_eq_some_iff.mp ha
    obtain ⟨hj, rfl⟩ := List.getElem?_eq_some_iff.mp hb
    exact set_set_perm l i j hi hj
  · exact List.Perm.refl l

theorem shuffleLoop_perm (salt : List Char) :
    ∀ (i v p : Nat) (alphabet : List Char), (shuffleLoop salt i v p alphabet).Perm alphabet
  | 0, _, _, alphabet => by simp [shuffleLoop]
  | i + 1, v, p, alphabet => by
    simp only [shuffleLoop]
    exact (shuffleLoop_perm salt i _ _ _).trans (swap_perm _ _ _)

theorem consistentShuffleInPlace_perm (alphabet salt : List Char) :
    (consistentShuffleInPlace alphabet salt).Perm alphabet := by
  unfold consistentShuffleInPlace
  split
  · exact List.Perm.refl _
  · exact shuffleLoop_perm _ _ _ _ _

theorem length_consistentShuffleInPlace (alphabet salt : List Char) :
    (consistentShuffleInPlace alphabet salt).length = alphabet.length :=
  (consistentShuffleInPlace_perm alphabet salt).length_eq

theorem mem_consistentShuffleInPlace (alphabet salt : List Char) (c : Char) :
    c ∈ consistentShuffleInPlace alphabet salt ↔ c ∈ alphabet :=
  (consistentShuffleInPlace_perm alphabet salt).mem_iff

theorem nodup_consistentShuffleInPlace (alphabet salt : List Char) :
    (consistentShuffleInPlace alphabet salt).Nodup ↔ alphabet.Nodup :=
  (consistentShuffleInPlace_perm alphabet salt).nodup_iff

/-! ## The digits written by `hash` -/

theorem hashLoop_spec (alphabet : List Char) (hb : 2 ≤ alphabet.length) (hn : alphabet.Nodup) :
    ∀ (fuel input : Nat) (acc : List Char), input < fuel →
      ∃ l, hashLoop alphabet fuel input acc = acc ++ l ∧ l ≠ [] ∧
        (∀ c ∈ l, c ∈ alphabet) ∧ unhash alphabet l = input
  | 0, _, _, h => absurd h (Nat.not_lt_zero _)
  | fuel + 1, input, acc, h => by
    have hpos : 0 < alphabet.length := by omega
    have hlt : input % alphabet.length < alphabet.length := Nat.mod_lt _ hpos
    have hget : alphabet.getD (input % alphabet.length) default
        = alphabet[input % alphabet.length] := List.getD_eq_getElem _ _ hlt
    have hidx : alphabet.indexOf (alphabet.getD (input % alphabet.length) default)
        = input % alphabet.length := by
      rw [hget]; exact List.indexOf_getElem hn _ hlt
    have hmem : alphabet.getD (input % alphabet.length) default ∈ alphabet := by
      rw [hget]; exact List.getElem_mem _
    simp only [hashLoop]
    split
    · rename_i hq
      refine ⟨[alphabet.getD (input % alphabet.length) default], rfl, by simp, ?_, ?_⟩
      · intro c hc
        rw [List.mem_singleton] at hc
        rw [hc]; exact hmem
      · have hsmall : input < alphabet.length := (Nat.div_eq_zero_iff hpos).mp hq
        simp only [unhash]
        rw [hidx, Nat.mul_zero, Nat.add_zero]
        exact Nat.mod_eq_of_lt hsmall
    · rename_i hq
      have hdiv : input / alphabet.length < fuel := by
        have h1 : input / alphabet.length < input :=
          Nat.div_lt_self (Nat.pos_of_ne_zero (fun h0 => hq (by simp [h0]))) hb
        omega
      obtain ⟨l, hl, _, hmeml, hval⟩ :=
        hashLoop_spec alphabet hb hn fuel (input / alphabet.length)
          (acc ++ [alphabet.getD (input % alphabet.length) default]) hdiv
      refine ⟨alphabet.getD (input % alphabet.length) default :: l, ?_, by simp, ?_, ?_⟩
      · rw [hl]; simp
      · intro c hc
        rcases List.mem_cons.mp hc with h1 | h1
        · rw [h1]; exact hmem
        · exact hmeml c h1
      · simp only [unhash, hidx, hval]
        exact Nat.mod_add_div _ _

theorem hash_spec (alphabet : List Char) (hb : 2 ≤ alphabet.length) (hn : alphabet.Nodup)
    (input : Nat) :
    hash input alphabet ≠ [] ∧ (∀ c ∈ hash input alphabet, c ∈ alphabet) ∧
      unhash alphabet (hash input alphabet).reverse = input := by
  obtain ⟨l, hl, hne, hmem, hval⟩ :=
    hashLoop_spec alphabet hb hn (input + 1) input [] (Nat.lt_succ_self _)
  have h : hash input alphabet = l.reverse := by simp [hash, hl]
  rw [h]
  refine ⟨by simpa using hne, ?_, by simpa using hval⟩
  intro c hc
  exact hmem c (List.mem_reverse.mp hc)

theorem hash_injective (alphabet : List Char) (hb : 2 ≤ alphabet.length) (hn : alphabet.Nodup)
    (n m : Nat) (h : hash n alphabet = hash m alphabet) : n = m := by
  have h1 := (hash_spec alphabet hb hn n).2.2
  have h2 := (hash_spec alphabet hb hn m).2.2
  rw [h] at h1
  exact h1.symm.trans h2

end hashids

/-! ## The instance built over the base62 alphabet -/

namespace hashids

theorem splitSeps_base62 :
    splitSeps sepsOriginal utils.base62Alphabet.toList = (sepsOriginal, base62NoSeps) := by
  decide

theorem newWithData_base62 (salt : String) :
    ∃ h, NewWithData ⟨utils.base62Alphabet, 7, salt⟩ = .ok h ∧ h.salt = salt.toList ∧
      Base62Instance h := by
  have hp := consistentShuffleInPlace_perm base62NoSeps salt.toList
  have hb : base62NoSeps.length = 48 := rfl
  have hso : sepsOriginal.length = 14 := rfl
  have hnd : (consistentShuffleInPlace base62NoSeps salt.toList).Nodup :=
    hp.nodup_iff.mpr (by decide)
  have hsplit := List.take_append_drop 4 (consistentShuffleInPlace base62NoSeps salt.toList)
  rw [← hsplit] at hnd
  have hdis := List.nodup_append.mp hnd
  refine ⟨⟨(consistentShuffleInPlace base62NoSeps salt.toList).drop 4, 7, salt.toList,
    consistentShuffleInPlace sepsOriginal salt.toList,
    (consistentShuffleInPlace base62NoSeps salt.toList).take 4⟩, ?_, rfl, ?_⟩
  · have h1 : ¬ (utils.base62Alphabet.utf8ByteSize < minAlphabetLength) := by decide
    have h2 : ¬ (' ' ∈ utils.base62Alphabet.toList) := by decide
    have h3 : utils.base62Alphabet.toList.Nodup := by decide
    simp only [NewWithData, if_neg h1, if_neg h2, h3, not_true_eq_false, if_false,
      splitSeps_base62, length_consistentShuffleInPlace, hb, hso]
    simp [hb]
  · refine ⟨rfl, ?_, ?_, hdis.2.1, ?_, ?_, ?_⟩
    · simp [length_consistentShuffleInPlace, hb]
    · simp [length_consistentShuffleInPlace, hb]
    · intro c hc hc2
      exact hdis.2.2 hc hc2
    · intro c hc
      exact hp.mem_iff.mp (List.mem_of_mem_drop hc)
    · intro c hc
      exact hp.mem_iff.mp (List.mem_of_mem_take hc)

end hashids

/-! ## Guards and padding -/

namespace hashids

theorem drop_take_window (X M Y : List Char) (d k : Nat) (hd : d ≤ X.length)
    (hk : X.length - d + M.length ≤ k) :
    ((X ++ (M ++ Y)).drop d).take k
      = X.drop d ++ (M ++ Y.take (k - (X.length - d) - M.length)) := by
  rw [List.drop_append_of_le_length hd, List.take_append_eq_append_take,
    List.take_append_eq_append_take]
  have h1 : (X.drop d).length = X.length - d := List.length_drop _ _
  rw [List.take_of_length_le (by omega), List.take_of_length_le (by omega), h1]

theorem padLoop_of_le (minLength : Nat) (alphabet result : List Char)
    (h : minLength ≤ result.length) :
    ∀ fuel, padLoop minLength fuel alphabet result = result
  | 0 => rfl
  | fuel + 1 => by
    simp only [padLoop]
    rw [if_neg (by omega)]

theorem padLoop_succ (minLength fuel : Nat) (alphabet result : List Char) :
    padLoop minLength (fuel + 1) alphabet result
      = if result.length < minLength then
          padLoop minLength fuel (consistentShuffleInPlace alphabet alphabet)
            (if 0 < ((consistentShuffleInPlace alphabet alphabet).drop
                  ((consistentShuffleInPlace alphabet alphabet).length / 2)
                ++ (result ++ (consistentShuffleInPlace alphabet alphabet).take
                  ((consistentShuffleInPlace alphabet alphabet).length / 2))).length - minLength
             then
              (((consistentShuffleInPlace alphabet alphabet).drop
                  ((consistentShuffleInPlace alphabet alphabet).length / 2)
                ++ (result ++ (consistentShuffleInPlace alphabet alphabet).take
                  ((consistentShuffleInPlace alphabet alphabet).length / 2))).drop
                ((((consistentShuffleInPlace alphabet alphabet).drop
                  ((consistentShuffleInPlace alphabet alphabet).length / 2)
                ++ (result ++ (consistentShuffleInPlace alphabet alphabet).take
                  ((consistentShuffleInPlace alphabet alphabet).length / 2))).length
                    - minLength) / 2)).take minLength
             else
              (consistentShuffleInPlace alphabet alphabet).drop
                  ((consistentShuffleInPlace alphabet alphabet).length / 2)
                ++ (result ++ (consistentShuffleInPlace alphabet alphabet).take
                  ((consistentShuffleInPlace alphabet alphabet).length / 2)))
        else result :=
  rfl

theorem padLoop_short (alphabet r : List Char) (ha : alphabet.length = 44)
    (hr : r.length < 7) :
    ∃ pre post, padLoop 7 7 alphabet r = pre ++ (r ++ post) ∧
      (∀ c ∈ pre, c ∈ alphabet) ∧ (∀ c ∈ post, c ∈ alphabet) ∧
      (pre ++ (r ++ post)).length = 7 := by
  obtain ⟨a2, ha2⟩ : ∃ a2, a2 = consistentShuffleInPlace alphabet alphabet := ⟨_, rfl⟩
  have hp : a2.Perm alphabet := ha2 ▸ consistentShuffleInPlace_perm alphabet alphabet
  have hl : a2.length = 44 := by rw [hp.length_eq, ha]
  have hX : (a2.drop 22).length = 22 := by rw [List.length_drop, hl]
  have hY : (a2.take 22).length = 22 := by rw [List.length_take, hl]; rfl
  have hlen : (a2.drop 22 ++ (r ++ a2.take 22)).length = 44 + r.length := by
    simp only [List.length_append, hX, hY]; omega
  have hwin := drop_take_window (a2.drop 22) r (a2.take 22) ((44 + r.length - 7) / 2) 7
    (by rw [hX]; omega) (by rw [hX]; omega)
  have hlen7 : (((a2.drop 22 ++ (r ++ a2.take 22)).drop ((44 + r.length - 7) / 2)).take 7).length
      = 7 := by
    rw [List.length_take, List.length_drop, hlen]; omega
  have hstep : padLoop 7 7 alphabet r
      = ((a2.drop 22 ++ (r ++ a2.take 22)).drop ((44 + r.length - 7) / 2)).take 7 := by
    have h22 : 44 / 2 = 22 := rfl
    rw [padLoop_succ 7 6, if_pos hr, ← ha2, hl, h22, hlen, if_pos (by omega)]
    exact padLoop_of_le 7 _ _ (by rw [hlen7]) 6
  refine ⟨(a2.drop 22).drop ((44 + r.length - 7) / 2),
    (a2.take 22).take (7 - ((a2.drop 22).length - (44 + r.length - 7) / 2) - r.length),
    ?_, ?_, ?_, ?_⟩
  · rw [hstep, hwin]
  · intro c hc
    exact hp.mem_iff.mp (List.mem_of_mem_drop (List.mem_of_mem_drop hc))
  · intro c hc
    exact hp.mem_iff.mp (List.mem_of_mem_take (List.mem_of_mem_take hc))
  · rw [← hwin]; exact hlen7

/-- The guarded form of a core: bare, guarded in front, or guarded on both sides. -/
theorem addGuards_shape (h : HashID) (hm : h.minLength = 7) (hg : h.guards.length = 4)
    (nh : Nat) (c : List Char) :
    (7 ≤ c.length ∧ addGuards h nh c = c) ∨
    (c.length = 6 ∧ ∃ g₀ ∈ h.guards, addGuards h nh c = g₀ :: c) ∨
    (c.length < 6 ∧ ∃ g₀ ∈ h.guards, ∃ g₁ ∈ h.guards, addGuards h nh c = g₀ :: (c ++ [g₁])) := by
  have hmem : ∀ k, h.guards.getD (k % h.guards.length) default ∈ h.guards := by
    intro k
    have hlt : k % h.guards.length < h.guards.length := Nat.mod_lt _ (by omega)
    rw [List.getD_eq_getElem _ _ hlt]
    exact List.getElem_mem _
  by_cases h7 : c.length < 7
  · by_cases h6 : c.length < 6
    · refine Or.inr (Or.inr ⟨h6,
        h.guards.getD ((nh + (c.getD 0 default).toNat) % h.guards.length) default, hmem _,
        h.guards.getD ((nh + ((h.guards.getD ((nh + (c.getD 0 default).toNat)
          % h.guards.length) default :: c).getD 2 default).toNat) % h.guards.length) default,
        hmem _, ?_⟩)
      simp only [addGuards, hm, List.length_cons, if_pos h7]
      rw [if_pos (by omega)]
      rfl
    · refine Or.inr (Or.inl ⟨by omega,
        h.guards.getD ((nh + (c.getD 0 default).toNat) % h.guards.length) default, hmem _, ?_⟩)
      simp only [addGuards, hm, List.length_cons, if_pos h7]
      rw [if_neg (by omega)]
  · refine Or.inl ⟨by omega, ?_⟩
    simp only [addGuards, hm, if_neg h7]

theorem middle_of_no_guard (guards s : List Char) (hs : ∀ c ∈ s, c ∉ guards) :
    middle guards s = s := by
  have h : s.dropWhile (fun c => decide (c ∉ guards)) = [] := by
    rw [List.dropWhile_eq_nil_iff]
    intro c hc
    exact decide_eq_true (hs c hc)
  unfold middle
  rw [h]

theorem dropWhile_to_guard (guards : List Char) (g : Char) (hg : g ∈ guards)
    (tail : List Char) :
    ∀ (pre : List Char), (∀ c ∈ pre, c ∉ guards) →
      (pre ++ g :: tail).dropWhile (fun c => decide (c ∉ guards)) = g :: tail
  | [], _ => by
    have : decide (g ∉ guards) = false := decide_eq_false (not_not_intro hg)
    simp only [List.nil_append, List.dropWhile, this]
  | x :: xs, hpre => by
    have hx : decide (x ∉ guards) = true := decide_eq_true (hpre x (List.mem_cons_self _ _))
    simp only [List.cons_append, List.dropWhile, hx]
    exact dropWhile_to_guard guards g hg tail xs
      (fun c hc => hpre c (List.mem_cons_of_mem _ hc))

theorem takeWhile_to_guard (guards : List Char) (rest : List Char)
    (hrest : rest = [] ∨ ∃ g₁ ∈ guards, ∃ rest₁, rest = g₁ :: rest₁) :
    ∀ (core : List Char), (∀ c ∈ core, c ∉ guards) →
      (core ++ rest).takeWhile (fun c => decide (c ∉ guards)) = core
  | [], _ => by
    rcases hrest with h | ⟨g₁, hg₁, rest₁, h⟩
    · rw [h]; rfl
    · have : decide (g₁ ∉ guards) = false := decide_eq_false (not_not_intro hg₁)
      rw [h]
      simp only [List.nil_append, List.takeWhile, this]
  | x :: xs, hcore => by
    have hx : decide (x ∉ guards) = true := decide_eq_true (hcore x (List.mem_cons_self _ _))
    simp only [List.cons_append, List.takeWhile, hx]
    exact congrArg (List.cons x) (takeWhile_to_guard guards rest hrest xs
      (fun c hc => hcore c (List.mem_cons_of_mem _ hc)))

theorem middle_of_guarded (guards : List Char) (g : Char) (hg : g ∈ guards)
    (pre core rest : List Char) (hpre : ∀ c ∈ pre, c ∉ guards)
    (hcore : ∀ c ∈ core, c ∉ guards)
    (hrest : rest = [] ∨ ∃ g₁ ∈ guards, ∃ rest₁, rest = g₁ :: rest₁) :
    middle guards (pre ++ g :: (core ++ rest)) = core := by
  unfold middle
  rw [dropWhile_to_guard guards g hg _ pre hpre]
  exact takeWhile_to_guard guards rest hrest core hcore

end hashids

/-! ## Codes of single numbers -/

namespace hashids

theorem encodeInt64_single (h : HashID) (n : Int) (hn : 0 ≤ n) :
    EncodeInt64 h [n] = .ok (String.mk (code h n.toNat)) := by
  have hneg : ¬ (n < 0) := not_lt.mpr hn
  simp [EncodeInt64, hneg, numbersHash, encodeLoop, code, core, lotteryOf, shuffledFor]

theorem encodeInt64_negative (h : HashID) (n : Int) (hn : n < 0) :
    EncodeInt64 h [n] = .error .negativeNumber := by
  simp [EncodeInt64, hn]

theorem lotteryOf_mem (h : HashID) (hi : Base62Instance h) (n : Nat) :
    lotteryOf h n ∈ h.alphabet := by
  have hlt : (n % 100) % h.alphabet.length < h.alphabet.length :=
    Nat.mod_lt _ (by rw [hi.alphabet_length]; decide)
  unfold lotteryOf
  rw [List.getD_eq_getElem _ _ hlt]
  exact List.getElem_mem _

theorem shuffledFor_perm (h : HashID) (lottery : Char) :
    (shuffledFor h lottery).Perm h.alphabet :=
  consistentShuffleInPlace_perm _ _

theorem core_mem (h : HashID) (hi : Base62Instance h) (n : Nat) :
    ∀ c ∈ core h n, c ∈ h.alphabet := by
  have hp := shuffledFor_perm h (lotteryOf h n)
  have hs := hash_spec (shuffledFor h (lotteryOf h n))
    (by rw [hp.length_eq, hi.alphabet_length]; decide) (hp.nodup_iff.mpr hi.alphabet_nodup) n
  intro c hc
  rcases List.mem_cons.mp hc with h1 | h1
  · rw [h1]; exact lotteryOf_mem h hi n
  · exact hp.mem_iff.mp (hs.2.1 c h1)

theorem core_not_guard (h : HashID) (hi : Base62Instance h) (n : Nat) :
    ∀ c ∈ core h n, c ∉ h.guards :=
  fun c hc hg => hi.guards_not_mem c hg (core_mem h hi n c hc)

theorem core_injective (h : HashID) (hi : Base62Instance h) (n m : Nat)
    (hc : core h n = core h m) : n = m := by
  have hp := shuffledFor_perm h (lotteryOf h n)
  unfold core at hc
  have hl : lotteryOf h n = lotteryOf h m := (List.cons.inj hc).1
  have hh := (List.cons.inj hc).2
  rw [← hl] at hh
  exact hash_injective (shuffledFor h (lotteryOf h n))
    (by rw [hp.length_eq, hi.alphabet_length]; decide) (hp.nodup_iff.mpr hi.alphabet_nodup)
    n m hh

/-- A code is its core, bare or between guards and padding drawn from the alphabet. -/
theorem code_shape (h : HashID) (hi : Base62Instance h) (n : Nat) :
    (7 ≤ (core h n).length ∧ code h n = core h n) ∨
    ((code h n).length = 7 ∧ ∃ pre g₀ rest, code h n = pre ++ g₀ :: (core h n ++ rest) ∧
      g₀ ∈ h.guards ∧ (∀ c ∈ pre, c ∈ h.alphabet) ∧
      (rest = [] ∨ ∃ g₁ ∈ h.guards, ∃ post, rest = g₁ :: post ∧ ∀ c ∈ post, c ∈ h.alphabet)) := by
  have hp := shuffledFor_perm h (lotteryOf h n)
  have hal : (shuffledFor h (lotteryOf h n)).length = 44 := by
    rw [hp.length_eq, hi.alphabet_length]
  unfold code
  rw [hi.minLength_eq]
  rcases addGuards_shape h hi.minLength_eq hi.guards_length (n % 100) (core h n) with
    ⟨h7, hg⟩ | ⟨h6, g₀, hg₀, hg⟩ | ⟨h5, g₀, hg₀, g₁, hg₁, hg⟩
  · left
    rw [hg]
    exact ⟨h7, padLoop_of_le 7 _ _ h7 7⟩
  · right
    rw [hg, padLoop_of_le 7 _ _ (by simp [h6]) 7]
    refine ⟨by simp [h6], [], g₀, [], by simp, hg₀, by simp, Or.inl rfl⟩
  · right
    rw [hg]
    by_cases hlen : (core h n).length = 5
    · rw [padLoop_of_le 7 _ _ (by simp [hlen]) 7]
      refine ⟨by simp [hlen], [], g₀, [g₁], by simp, hg₀, by simp,
        Or.inr ⟨g₁, hg₁, [], rfl, by simp⟩⟩
    · obtain ⟨pre, post, heq, hpre, hpost, hl7⟩ :=
        padLoop_short (shuffledFor h (lotteryOf h n)) (g₀ :: (core h n ++ [g₁])) hal
          (by simp; omega)
      rw [heq]
      refine ⟨hl7, pre, g₀, g₁ :: post, by simp, hg₀,
        fun c hc => hp.mem_iff.mp (hpre c hc),
        Or.inr ⟨g₁, hg₁, post, rfl, fun c hc => hp.mem_iff.mp (hpost c hc)⟩⟩

theorem middle_code (h : HashID) (hi : Base62Instance h) (n : Nat) :
    middle h.guards (code h n) = core h n := by
  rcases code_shape h hi n with ⟨_, hc⟩ | ⟨_, pre, g₀, rest, hc, hg₀, hpre, hrest⟩
  · rw [hc]
    exact middle_of_no_guard _ _ (core_not_guard h hi n)
  · rw [hc]
    refine middle_of_guarded _ g₀ hg₀ pre _ rest
      (fun c hc hg => hi.guards_not_mem c hg (hpre c hc)) (core_not_guard h hi n) ?_
    rcases hrest with h0 | ⟨g₁, hg₁, post, h1, _⟩
    · exact Or.inl h0
    · exact Or.inr ⟨g₁, hg₁, post, h1⟩

theorem code_injective (h : HashID) (hi : Base62Instance h) (n m : Nat)
    (hc : code h n = code h m) : n = m := by
  have h1 := middle_code h hi n
  rw [hc, middle_code h hi m] at h1
  exact core_injective h hi n m h1.symm

theorem length_code (h : HashID) (hi : Base62Instance h) (n : Nat) : 7 ≤ (code h n).length := by
  rcases code_shape h hi n with ⟨h7, hc⟩ | ⟨hl, _⟩
  · rw [hc]; exact h7
  · rw [hl]

theorem code_mem (h : HashID) (hi : Base62Instance h) (n : Nat) :
    ∀ c ∈ code h n, c ∈ base62NoSeps := by
  intro c hc
  rcases code_shape h hi n with ⟨_, he⟩ | ⟨_, pre, g₀, rest, he, hg₀, hpre, hrest⟩
  · rw [he] at hc
    exact hi.alphabet_sub c (core_mem h hi n c hc)
  · rw [he] at hc
    rcases List.mem_append.mp hc with h1 | h1
    · exact hi.alphabet_sub c (hpre c h1)
    · rcases List.mem_cons.mp h1 with h2 | h2
      · rw [h2]; exact hi.guards_sub g₀ hg₀
      · rcases List.mem_append.mp h2 with h3 | h3
        · exact hi.alphabet_sub c (core_mem h hi n c h3)
        · rcases hrest with h0 | ⟨g₁, hg₁, post, hr, hpost⟩
          · rw [h0] at h3; exact absurd h3 (List.not_mem_nil c)
          · rw [hr] at h3
            rcases List.mem_cons.mp h3 with h4 | h4
            · rw [h4]; exact hi.guards_sub g₁ hg₁
            · exact hi.alphabet_sub c (hpost c h4)

end hashids

/-! ## Published examples of the encoder -/

namespace hashids

set_option maxRecDepth 1000000 in
/-- The examples of the hashids documentation: salt "this is my salt", default alphabet. -/
theorem published_examples :
    (NewWithData ⟨DefaultAlphabet, 0, "this is my salt"⟩).toOption.map
        (fun h => (Encode h [12345]).toOption) = some (some "NkK9") ∧
    (NewWithData ⟨DefaultAlphabet, 0, "this is my salt"⟩).toOption.map
        (fun h => (Encode h [1, 2, 3]).toOption) = some (some "laHquq") ∧
    (NewWithData ⟨DefaultAlphabet, 8, "this is my salt"⟩).toOption.map
        (fun h => (Encode h [1]).toOption) = some (some "gB0NV05e") := by
  refine ⟨by decide, by decide, by decide⟩

end hashids

/-! ## `GenerateShortID` -/

namespace utils

theorem encodeID_of_nonneg (salt : String) (id : Int) (hid : 0 ≤ id) :
    ∃ h, hashids.Base62Instance h ∧
      encodeID salt id = (String.mk (hashids.code h id.toNat), none) ∧
      ∀ id₂ : Int, 0 ≤ id₂ → encodeID salt id₂ = (String.mk (hashids.code h id₂.toNat), none) := by
  obtain ⟨h, hnew, _, hi⟩ := hashids.newWithData_base62 salt
  have key : ∀ j : Int, 0 ≤ j → encodeID salt j = (String.mk (hashids.code h j.toNat), none) := by
    intro j hj
    simp only [encodeID, hnew, hashids.Encode, hashids.encodeInt64_single h j hj]
  exact ⟨h, hi, key id hid, key⟩

theorem encodeID_of_neg (salt : String) (id : Int) (hid : id < 0) :
    encodeID salt id = ("", some .negativeNumber) := by
  obtain ⟨h, hnew, _, _⟩ := hashids.newWithData_base62 salt
  simp only [encodeID, hnew, hashids.Encode, hashids.encodeInt64_negative h id hid]

theorem encodeID_eq_iff (salt : String) (v₁ v₂ : Int) (h₁ : 0 ≤ v₁) (h₂ : 0 ≤ v₂) :
    ∃ code₁ code₂, encodeID salt v₁ = (code₁, none) ∧ encodeID salt v₂ = (code₂, none) ∧
      (code₁ = code₂ ↔ v₁ = v₂) := by
  obtain ⟨h, hi, he₁, hall⟩ := encodeID_of_nonneg salt v₁ h₁
  refine ⟨_, _, he₁, hall v₂ h₂, ?_⟩
  constructor
  · intro heq
    have hl : hashids.code h v₁.toNat = hashids.code h v₂.toNat := congrArg String.data heq
    have hn := hashids.code_injective h hi _ _ hl
    omega
  · intro heq
    rw [heq]

theorem generateShortID_of_incr (rs : redisstore.RedisService) (now : Time) (c : redis.Client)
    (v : Int) (h : redis.Incr rs.Client rs.Config.RedisCounterKey now = (c, .ok v)) :
    GenerateShortID rs now = ({ rs with Client := c }, encodeID rs.Config.UrlSalt v) := by
  simp only [GenerateShortID, h]

/-- C1. For a fixed salt and two counter values returned by the increment, both positive,
`GenerateShortID` succeeds on both, and the two codes are equal exactly when the two counter
values are: distinct values give distinct codes, and one value always gives one code. -/
theorem generateShortID_codes_distinct (rs₁ rs₂ : redisstore.RedisService) (now₁ now₂ : Time)
    (c₁ c₂ : redis.Client) (v₁ v₂ : Int)
    (hsalt : rs₁.Config.UrlSalt = rs₂.Config.UrlSalt)
    (h₁ : redis.Incr rs₁.Client rs₁.Config.RedisCounterKey now₁ = (c₁, .ok v₁))
    (h₂ : redis.Incr rs₂.Client rs₂.Config.RedisCounterKey now₂ = (c₂, .ok v₂))
    (hv₁ : 0 < v₁) (hv₂ : 0 < v₂) :
    ∃ code₁ code₂, (GenerateShortID rs₁ now₁).2 = (code₁, none) ∧
      (GenerateShortID rs₂ now₂).2 = (code₂, none) ∧ (code₁ = code₂ ↔ v₁ = v₂) := by
  rw [generateShortID_of_incr rs₁ now₁ c₁ v₁ h₁, generateShortID_of_incr rs₂ now₂ c₂ v₂ h₂,
    ← hsalt]
  exact encodeID_eq_iff rs₁.Config.UrlSalt v₁ v₂ (le_of_lt hv₁) (le_of_lt hv₂)

/-- A fresh keyspace and one whose counter stands at 1 give the values 1 and 2, and with the
same salt two different codes. -/
theorem generateShortID_codes_distinct_witness :
    ∃ code₁ code₂,
      (GenerateShortID ⟨⟨"s3cret", "url:counter"⟩, ⟨true, fun _ => none⟩⟩ 0).2 = (code₁, none) ∧
      (GenerateShortID ⟨⟨"s3cret", "url:counter"⟩,
          ⟨true, fun k => if k = "url:counter" then some ⟨"1", none⟩ else none⟩⟩ 5).2
        = (code₂, none) ∧
      (code₁ = code₂ ↔ (1 : Int) = 2) :=
  generateShortID_codes_distinct
    ⟨⟨"s3cret", "url:counter"⟩, ⟨true, fun _ => none⟩⟩
    ⟨⟨"s3cret", "url:counter"⟩,
      ⟨true, fun k => if k = "url:counter" then some ⟨"1", none⟩ else none⟩⟩
    0 5 _ _ 1 2 rfl rfl rfl (by decide) (by decide)

/-- C2. Whenever `GenerateShortID` succeeds, the code it returns has at least 7 characters,
each of them one of the 62 characters of `base62Alphabet`. -/
theorem generateShortID_code_wellformed (rs rs' : redisstore.RedisService) (now : Time)
    (code : String) (h : GenerateShortID rs now = (rs', (code, none))) :
    7 ≤ code.length ∧ ∀ c ∈ code.toList, c ∈ base62Alphabet.toList := by
  have hsub : ∀ c ∈ hashids.base62NoSeps, c ∈ base62Alphabet.toList := by decide
  unfold GenerateShortID at h
  split at h
  · simp at h
  · rename_i c id _
    have henc : encodeID rs.Config.UrlSalt id = (code, none) := (Prod.mk.inj h).2
    by_cases hid : 0 ≤ id
    · obtain ⟨hh, hi, he, _⟩ := encodeID_of_nonneg rs.Config.UrlSalt id hid
      rw [he] at henc
      have hcode : code = String.mk (hashids.code hh id.toNat) := (Prod.mk.inj henc).1.symm
      rw [hcode]
      exact ⟨hashids.length_code hh hi _, fun c hc => hsub c (hashids.code_mem hh hi _ c hc)⟩
    · rw [encodeID_of_neg _ _ (not_le.mp hid)] at henc
      simp at henc

set_option maxRecDepth 1000000 in
/-- On a fresh keyspace with an empty salt the code is `87EJpBo`. -/
theorem generateShortID_code_wellformed_witness :
    7 ≤ "87EJpBo".length ∧ ∀ c ∈ "87EJpBo".toList, c ∈ base62Alphabet.toList :=
  generateShortID_code_wellformed ⟨⟨"", "url:counter"⟩, ⟨true, fun _ => none⟩⟩
    ⟨⟨"", "url:counter"⟩,
      ⟨true, fun k => if k = "url:counter" then some ⟨"1", none⟩ else none⟩⟩
    0 "87EJpBo" (by rfl)

end utils

/-! ## Resolution -/

namespace domains

theorem get_eq_cachedURL (s : UrlShortnerService) (shortID : String) (now : Time) :
    (((s.redisStore.Get shortID now).2 = none ∧ (s.redisStore.Get shortID now).1 ≠ "") →
        cachedURL s shortID now = some (s.redisStore.Get shortID now).1) ∧
    (¬ ((s.redisStore.Get shortID now).2 = none ∧ (s.redisStore.Get shortID now).1 ≠ "") →
        cachedURL s shortID now = none) := by
  unfold redisstore.RedisService.Get redis.Get redis.lookup redis.live cachedURL
  cases hr : s.redisStore.Client.reachable
  · simp
  · cases he : s.redisStore.Client.entries shortID with
    | none => simp
    | some e =>
      rcases e with ⟨v, _ | t⟩
      · by_cases hv : v = "" <;> simp [hv]
      · by_cases hlt : now < t <;> by_cases hv : v = "" <;> simp [hlt, hv]

theorem findOne_eq_storedLink (s : UrlShortnerService) (shortID : String) :
    (∀ d, mongo.FindOne s.Client ⟨some (baseURL ++ shortID), none⟩ = .ok d ↔
      storedLink s shortID = some d) ∧
    ((∃ e, mongo.FindOne s.Client ⟨some (baseURL ++ shortID), none⟩ = .error e) ↔
      storedLink s shortID = none) := by
  have hf : (mongo.Filter.matches ⟨some (baseURL ++ shortID), none⟩)
      = (fun d => decide (d.Shortened = baseURL ++ shortID)) := by
    funext d
    simp [mongo.Filter.matches]
  unfold mongo.FindOne storedLink
  rw [hf]
  cases hr : s.Client.reachable
  · simp
  · cases hfind : s.Client.urls.find? (fun d => decide (d.Shortened = baseURL ++ shortID)) <;>
      simp

/-- The three cases of `RedirectShortURL`, in terms of what the cache and the store hold. -/
theorem redirectShortURL_cases (s : UrlShortnerService) (shortID : String) (c : Request)
    (now : Time) :
    RedirectShortURL s shortID c now =
      match cachedURL s shortID now with
      | some longURL => ⟨.redirect 302 longURL, false, [.processClickStats shortID c]⟩
      | none =>
        match storedLink s shortID with
        | some link =>
          ⟨.redirect 302 link.Original, true,
            [.processClickStats shortID c, .cacheSet shortID link.Original (24 * Hour)]⟩
        | none => ⟨.abortJSON 404 "Short URL not found", true, []⟩ := by
  have hc := get_eq_cachedURL s shortID now
  have hs := findOne_eq_storedLink s shortID
  unfold RedirectShortURL
  by_cases hhit : (s.redisStore.Get shortID now).2 = none ∧ (s.redisStore.Get shortID now).1 ≠ ""
  · rw [hc.1 hhit]
    simp only [hhit, ne_eq, not_false_eq_true, and_self, if_true]
  · rw [hc.2 hhit]
    simp only [hhit, if_false]
    cases hfind : mongo.FindOne s.Client ⟨some (baseURL ++ shortID), none⟩ with
    | ok d => rw [(hs.1 d).mp hfind]
    | error e => rw [hs.2.mp ⟨e, hfind⟩]

/-- C3. The outcome of `RedirectShortURL`, for every cache, store and code: a redirect to
the cached URL when the cache answers with a live, non-empty value; otherwise, cache miss
and cache error alike, a redirect to the original URL of the stored link whose short URL is
built from the code, with the click task and the cache write started; otherwise 404, with
no click task and no cache write. -/
theorem redirectShortURL_outcome (s : UrlShortnerService) (shortID : String) (c : Request)
    (now : Time) :
    RedirectShortURL s shortID c now =
      match cachedURL s shortID now with
      | some longURL => ⟨.redirect 302 longURL, false, [.processClickStats shortID c]⟩
      | none =>
        match storedLink s shortID with
        | some link =>
          ⟨.redirect 302 link.Original, true,
            [.processClickStats shortID c, .cacheSet shortID link.Original (24 * Hour)]⟩
        | none => ⟨.abortJSON 404 "Short URL not found", true, []⟩ :=
  redirectShortURL_cases s shortID c now

end domains

/-! ## Shorten, then resolve -/

namespace domains

theorem incr_frame (c c' : redis.Client) (key : String) (now : Time) (r : Except Err Int)
    (h : redis.Incr c key now = (c', r)) :
    c'.reachable = c.reachable ∧ (∀ k, k ≠ key → c'.entries k = c.entries k) ∧
      ((∃ v, r = .ok v) → c.reachable = true) := by
  unfold redis.Incr at h
  cases hr : c.reachable
  · rw [hr] at h
    simp only [Bool.false_eq_true, if_false, Prod.mk.injEq] at h
    obtain ⟨rfl, rfl⟩ := h
    exact ⟨hr, fun _ _ => rfl, fun ⟨v, hv⟩ => by simp at hv⟩
  · rw [hr] at h
    simp only [if_true] at h
    split at h
    · simp only [Prod.mk.injEq] at h
      obtain ⟨rfl, rfl⟩ := h
      exact ⟨rfl, fun k hk => by simp [hk], fun _ => rfl⟩
    · split at h
      · simp only [Prod.mk.injEq] at h
        obtain ⟨rfl, rfl⟩ := h
        exact ⟨hr, fun _ _ => rfl, fun _ => rfl⟩
      · split at h
        · simp only [Prod.mk.injEq] at h
          obtain ⟨rfl, rfl⟩ := h
          exact ⟨rfl, fun k hk => by simp [hk], fun _ => rfl⟩
        · simp only [Prod.mk.injEq] at h
          obtain ⟨rfl, rfl⟩ := h
          exact ⟨hr, fun _ _ => rfl, fun _ => rfl⟩

theorem generateShortID_frame (rs rs' : redisstore.RedisService) (now : Time) (code : String)
    (h : utils.GenerateShortID rs now = (rs', (code, none))) :
    rs'.Config = rs.Config ∧ rs'.Client.reachable = true ∧
      ∀ k, k ≠ rs.Config.RedisCounterKey → rs'.Client.entries k = rs.Client.entries k := by
  unfold utils.GenerateShortID at h
  split at h
  · simp at h
  · rename_i c id hincr
    obtain ⟨h1, h2, h3⟩ := incr_frame _ _ _ _ _ hincr
    have hrs : rs' = { rs with Client := c } := (Prod.mk.inj h).1.symm
    rw [hrs]
    exact ⟨rfl, by rw [h1]; exact h3 ⟨id, rfl⟩, h2⟩

theorem baseURL_append_cancel (a b : String) (h : baseURL ++ a = baseURL ++ b) : a = b := by
  have h1 : (baseURL ++ a).data = (baseURL ++ b).data := congrArg String.data h
  simp only [String.data_append] at h1
  exact String.ext (List.append_cancel_left h1)

theorem generateShortURL_success (s s' : UrlShortnerService) (chatID : Int) (u code : String)
    (now : Time) (h : GenerateShortURL s chatID u now = (s', (baseURL ++ code, none))) :
    s'.redisStore.Client.reachable = true ∧
    (∀ k, k ≠ s.redisStore.Config.RedisCounterKey →
      s'.redisStore.Client.entries k = s.redisStore.Client.entries k) ∧
    s'.Client.reachable = true ∧
    ∃ d, s'.Client.urls = s.Client.urls ++ [d] ∧ d.Shortened = baseURL ++ code ∧
      d.Original = u ∧ d.ChatID = chatID := by
  unfold GenerateShortURL at h
  split at h
  · simp at h
  · rename_i rs shortID hgen
    obtain ⟨_, hreach, hframe⟩ := generateShortID_frame _ _ _ _ hgen
    unfold mongo.InsertOne at h
    cases hr : s.Client.reachable
    · rw [hr] at h
      simp at h
    · rw [hr] at h
      simp only [if_true, Prod.mk.injEq, and_true] at h
      obtain ⟨hs, hurl⟩ := h
      rw [← hs]
      exact ⟨hreach, hframe, rfl, _, rfl, hurl, rfl, rfl⟩

/-- C4, amended. If `GenerateShortURL` succeeds with code `c`, the store held no link for `c`
and the cache no live entry for `c` beforehand, and `c` is not the key under which the
counter is kept, then at any later instant `RedirectShortURL` on `c` redirects to exactly
the shortened URL, read from the store. -/
theorem generateShortURL_round_trip (s s' : UrlShortnerService) (chatID : Int)
    (u code : String) (c : Request) (now now' : Time)
    (hgen : GenerateShortURL s chatID u now = (s', (baseURL ++ code, none)))
    (hstore : ∀ d ∈ s.Client.urls, d.Shortened ≠ baseURL ++ code)
    (hcache : redis.lookup s.redisStore.Client code now = none)
    (hkey : code ≠ s.redisStore.Config.RedisCounterKey)
    (hnow : now ≤ now') :
    RedirectShortURL s' code c now' =
      ⟨.redirect 302 u, true,
        [.processClickStats code c, .cacheSet code u (24 * Hour)]⟩ := by
  obtain ⟨hr, hframe, hdb, d, hurls, hshort, horig, _⟩ :=
    generateShortURL_success s s' chatID u code now hgen
  have hcached : cachedURL s' code now' = none := by
    unfold cachedURL
    rw [hr, hframe code hkey]
    unfold redis.lookup redis.live at hcache
    cases he : s.redisStore.Client.entries code with
    | none => simp
    | some e =>
      rw [he] at hcache
      rcases e with ⟨v, _ | t⟩
      · simp at hcache
      · have hexp : ¬ (now < t) := by
          intro hlt
          simp [hlt] at hcache
        have : ¬ (now' < t) := fun hlt => hexp (Nat.lt_of_le_of_lt hnow hlt)
        simp [this]
  have hstored : storedLink s' code = some d := by
    unfold storedLink
    rw [hdb, hurls]
    have hnone : s.Client.urls.find? (fun d => decide (d.Shortened = baseURL ++ code)) = none := by
      rw [List.find?_eq_none]
      intro x hx
      simpa using hstore x hx
    simp [List.find?_append, hnone, hshort]
  simp only [redirectShortURL_cases, hcached, hstored, horig]

set_option maxRecDepth 1000000 in
/-- With the counter kept under `url:counter`, the first link resolves to its URL. -/
theorem generateShortURL_round_trip_witness :
    RedirectShortURL
        (GenerateShortURL ⟨⟨⟨"", "url:counter"⟩, ⟨true, fun _ => none⟩⟩, ⟨true, []⟩⟩ 42
          "https://example.com/page" 10).1
        "87EJpBo" ⟨"203.0.113.7", "curl/8.0"⟩ 20 =
      ⟨.redirect 302 "https://example.com/page", true,
        [.processClickStats "87EJpBo" ⟨"203.0.113.7", "curl/8.0"⟩,
          .cacheSet "87EJpBo" "https://example.com/page" (24 * Hour)]⟩ :=
  generateShortURL_round_trip ⟨⟨⟨"", "url:counter"⟩, ⟨true, fun _ => none⟩⟩, ⟨true, []⟩⟩ _ 42
    "https://example.com/page" "87EJpBo" ⟨"203.0.113.7", "curl/8.0"⟩ 10 20
    (by rfl) (by simp) (by rfl) (by decide) (by decide)

set_option maxRecDepth 1000000 in
/-- C4, as stated, fails when the counter is kept under the key that is also the first
code: on fresh stores the link is created with code `87EJpBo`, neither the store nor the
cache held anything for that code beforehand, and the code resolves to the counter value
`1`, not to the shortened URL. -/
theorem generateShortURL_round_trip_counterexample :
    (GenerateShortURL ⟨⟨⟨"", "87EJpBo"⟩, ⟨true, fun _ => none⟩⟩, ⟨true, []⟩⟩ 42
        "https://example.com/page" 10).2 = (baseURL ++ "87EJpBo", none) ∧
    mongo.Client.urls ⟨true, []⟩ = [] ∧
    redis.lookup ⟨true, fun _ => none⟩ "87EJpBo" 10 = none ∧
    (RedirectShortURL
        (GenerateShortURL ⟨⟨⟨"", "87EJpBo"⟩, ⟨true, fun _ => none⟩⟩, ⟨true, []⟩⟩ 42
          "https://example.com/page" 10).1
        "87EJpBo" ⟨"203.0.113.7", "curl/8.0"⟩ 20).response = .redirect 302 "1" ∧
    Response.redirect 302 "1" ≠ .redirect 302 "https://example.com/page" := by
  refine ⟨by decide, rfl, rfl, by decide, by decide⟩

end domains

/-! ## Click statistics -/

namespace domains

theorem matches_shortened (u : String) (d : dtos.ShortenedURL) :
    mongo.Filter.matches ⟨some u, none⟩ d = decide (d.Shortened = u) := by
  simp [mongo.Filter.matches]

theorem find?_first_match (p : dtos.ShortenedURL → Bool) (link : dtos.ShortenedURL)
    (post : List dtos.ShortenedURL) (hlink : p link = true) :
    ∀ (pre : List dtos.ShortenedURL), (∀ d ∈ pre, p d = false) →
      (pre ++ link :: post).find? p = some link
  | [], _ => by simp [List.find?, hlink]
  | x :: xs, hpre => by
    have hx : p x = false := hpre x (List.mem_cons_self _ _)
    simp only [List.cons_append, List.find?, hx]
    exact find?_first_match p link post hlink xs
      (fun d hd => hpre d (List.mem_cons_of_mem _ hd))

theorem updateFirst_first_match (p : dtos.ShortenedURL → Bool)
    (g : dtos.ShortenedURL → dtos.ShortenedURL) (link : dtos.ShortenedURL)
    (post : List dtos.ShortenedURL) (hlink : p link = true) :
    ∀ (pre : List dtos.ShortenedURL), (∀ d ∈ pre, p d = false) →
      mongo.updateFirst p g (pre ++ link :: post) = pre ++ g link :: post
  | [], _ => by simp [mongo.updateFirst, hlink]
  | x :: xs, hpre => by
    have hx : p x = false := hpre x (List.mem_cons_self _ _)
    simp only [List.cons_append, mongo.updateFirst, hx, Bool.false_eq_true, if_false]
    exact congrArg (List.cons x) (updateFirst_first_match p g link post hlink xs
      (fun d hd => hpre d (List.mem_cons_of_mem _ hd)))

/-- The effect of `UpdateClickStats` on the first stored link with the short URL of the
code: that link is replaced by its update, every other document stays. -/
theorem updateClickStats_eq (s : UrlShortnerService)
    (shortID country city device os browser : String) (t₁ t₂ : Time)
    (pre post : List dtos.ShortenedURL) (link : dtos.ShortenedURL)
    (hreach : s.Client.reachable = true)
    (hurls : s.Client.urls = pre ++ link :: post)
    (hpre : ∀ d ∈ pre, d.Shortened ≠ baseURL ++ shortID)
    (hlink : link.Shortened = baseURL ++ shortID) :
    UpdateClickStats s shortID country city device os browser t₁ t₂ =
      ({ s with Client := ⟨true, pre ++
          (clickUpdate (.ok link) country city device os browser t₁ t₂).apply link :: post⟩ },
        none) := by
  have hp : ∀ d ∈ pre, mongo.Filter.matches ⟨some (baseURL ++ shortID), none⟩ d = false := by
    intro d hd
    rw [matches_shortened]
    exact decide_eq_false (hpre d hd)
  have hl : mongo.Filter.matches ⟨some (baseURL ++ shortID), none⟩ link = true := by
    rw [matches_shortened]
    exact decide_eq_true hlink
  have hfind : mongo.FindOne s.Client ⟨some (baseURL ++ shortID), none⟩ = .ok link := by
    unfold mongo.FindOne
    rw [hreach, hurls, find?_first_match _ link post hl pre hp]
    rfl
  unfold UpdateClickStats
  simp only [hfind, mongo.UpdateOne, hreach, if_true, hurls,
    updateFirst_first_match _ _ link post hl pre hp]

/-- The link after `UpdateClickStats`, with clock readings `t₁` (stored as last click) and
`t₂` (stored as first click when none was set): the click counter grows by exactly 1,
last-click is `t₁`, first-click is `t₂` if it was unset and the old first-click otherwise,
and short URL, original URL, owner and creation time are unchanged. -/
theorem updateClickStats_link (s : UrlShortnerService)
    (shortID country city device os browser : String) (t₁ t₂ : Time)
    (pre post : List dtos.ShortenedURL) (link : dtos.ShortenedURL)
    (hreach : s.Client.reachable = true)
    (hurls : s.Client.urls = pre ++ link :: post)
    (hpre : ∀ d ∈ pre, d.Shortened ≠ baseURL ++ shortID)
    (hlink : link.Shortened = baseURL ++ shortID) :
    ∃ link', UpdateClickStats s shortID country city device os browser t₁ t₂ =
        ({ s with Client := ⟨true, pre ++ link' :: post⟩ }, none) ∧
      link'.Clicks = link.Clicks + 1 ∧
      link'.LastClick = t₁ ∧
      link'.FirstClick = (if link.FirstClick.IsZero then t₂ else link.FirstClick) ∧
      link'.Shortened = link.Shortened ∧ link'.Original = link.Original ∧
      link'.ChatID = link.ChatID ∧ link'.CreatedAt = link.CreatedAt := by
  refine ⟨_, updateClickStats_eq s shortID country city device os browser t₁ t₂ pre post link
    hreach hurls hpre hlink, rfl, rfl, ?_, rfl, rfl, rfl, rfl⟩
  cases hz : link.FirstClick.IsZero <;> simp [mongo.Update.apply, clickUpdate, hz]

/-- A first click at readings 100 and 101 on a fresh link of owner 42. -/
theorem updateClickStats_link_witness :
    ∃ link', UpdateClickStats
        ⟨⟨⟨"", "url:counter"⟩, ⟨true, fun _ => none⟩⟩,
          ⟨true, [⟨42, "https://example.com/page", "http://localhost:8080/87EJpBo", 0, 10, 0, 0,
            [], [], [], [], []⟩]⟩⟩
        "87EJpBo" "India" "Mumbai" "Mobile" "Android" "Chrome" 100 101 =
        (⟨⟨⟨"", "url:counter"⟩, ⟨true, fun _ => none⟩⟩, ⟨true, [] ++ link' :: []⟩⟩, none) ∧
      link'.Clicks = 0 + 1 ∧ link'.LastClick = 100 ∧
      link'.FirstClick = (if Time.IsZero 0 then 101 else 0) ∧
      link'.Shortened = "http://localhost:8080/87EJpBo" ∧
      link'.Original = "https://example.com/page" ∧ link'.ChatID = 42 ∧ link'.CreatedAt = 10 :=
  updateClickStats_link
    ⟨⟨⟨"", "url:counter"⟩, ⟨true, fun _ => none⟩⟩,
      ⟨true, [⟨42, "https://example.com/page", "http://localhost:8080/87EJpBo", 0, 10, 0, 0,
        [], [], [], [], []⟩]⟩⟩
    "87EJpBo" "India" "Mumbai" "Mobile" "Android" "Chrome" 100 101 [] []
    ⟨42, "https://example.com/page", "http://localhost:8080/87EJpBo", 0, 10, 0, 0,
      [], [], [], [], []⟩
    rfl rfl (by simp) (by decide)

theorem addToSet_isSetInsert (old : List String) (v : String) :
    IsSetInsert old v (mongo.addToSet old v) := by
  unfold mongo.addToSet
  by_cases hv : v ∈ old
  · rw [if_pos hv]
    refine ⟨id, fun x => ⟨Or.inl, ?_⟩, fun h => absurd hv h, fun _ => rfl⟩
    rintro (h | h)
    · exact h
    · rw [h]; exact hv
  · rw [if_neg hv]
    refine ⟨fun hn => ?_, fun x => by simp, fun _ => rfl, fun h => absurd h hv⟩
    rw [List.nodup_append]
    refine ⟨hn, List.nodup_singleton v, ?_⟩
    intro x hx hx'
    rw [List.mem_singleton] at hx'
    exact hv (hx' ▸ hx)

/-- C6. `UpdateClickStats` inserts each observed value into its collection with set-union
semantics: a duplicate-free collection stays duplicate-free, an absent value is added, a
present value leaves the collection as it was; and after two clicks from the same country
on a link with duplicate-free countries that country occurs exactly once. -/
theorem updateClickStats_set_union (s : UrlShortnerService)
    (shortID country city device os browser : String) (t₁ t₂ : Time)
    (pre post : List dtos.ShortenedURL) (link : dtos.ShortenedURL)
    (hreach : s.Client.reachable = true)
    (hurls : s.Client.urls = pre ++ link :: post)
    (hpre : ∀ d ∈ pre, d.Shortened ≠ baseURL ++ shortID)
    (hlink : link.Shortened = baseURL ++ shortID) :
    ∃ link', UpdateClickStats s shortID country city device os browser t₁ t₂ =
        ({ s with Client := ⟨true, pre ++ link' :: post⟩ }, none) ∧
      IsSetInsert link.Countries country link'.Countries ∧
      IsSetInsert link.Cities city link'.Cities ∧
      IsSetInsert link.Devices device link'.Devices ∧
      IsSetInsert link.OS os link'.OS ∧
      IsSetInsert link.Browsers browser link'.Browsers ∧
      ∀ (city₂ device₂ os₂ browser₂ : String) (t₃ t₄ : Time), link.Countries.Nodup →
        ∃ link'', UpdateClickStats
            (UpdateClickStats s shortID country city device os browser t₁ t₂).1
            shortID country city₂ device₂ os₂ browser₂ t₃ t₄ =
            ({ s with Client := ⟨true, pre ++ link'' :: post⟩ }, none) ∧
          link''.Countries.count country = 1 := by
  have h1 := updateClickStats_eq s shortID country city device os browser t₁ t₂ pre post link
    hreach hurls hpre hlink
  refine ⟨_, h1, addToSet_isSetInsert _ _, addToSet_isSetInsert _ _, addToSet_isSetInsert _ _,
    addToSet_isSetInsert _ _, addToSet_isSetInsert _ _, ?_⟩
  intro city₂ device₂ os₂ browser₂ t₃ t₄ hnd
  rw [h1]
  refine ⟨_, updateClickStats_eq _ shortID country city₂ device₂ os₂ browser₂ t₃ t₄ pre post _
    rfl rfl hpre hlink, ?_⟩
  have hins := addToSet_isSetInsert link.Countries country
  have hins2 := addToSet_isSetInsert (mongo.addToSet link.Countries country) country
  have hmem : country ∈ mongo.addToSet link.Countries country :=
    (hins.mem_iff country).mpr (Or.inr rfl)
  show (mongo.addToSet (mongo.addToSet link.Countries country) country).count country = 1
  rw [hins2.of_present hmem]
  exact List.count_eq_one_of_mem (hins.nodup hnd) hmem

/-- Two clicks from India on a fresh link leave India in the countries once. -/
theorem updateClickStats_set_union_witness :
    ∃ link', UpdateClickStats
        ⟨⟨⟨"", "url:counter"⟩, ⟨true, fun _ => none⟩⟩,
          ⟨true, [⟨42, "https://example.com/page", "http://localhost:8080/87EJpBo", 0, 10, 0, 0,
            [], [], [], [], []⟩]⟩⟩
        "87EJpBo" "India" "Mumbai" "Mobile" "Android" "Chrome" 100 101 =
        (⟨⟨⟨"", "url:counter"⟩, ⟨true, fun _ => none⟩⟩, ⟨true, [] ++ link' :: []⟩⟩, none) ∧
      IsSetInsert [] "India" link'.Countries :=
  let ⟨link', h, hc, _⟩ := updateClickStats_set_union
    ⟨⟨⟨"", "url:counter"⟩, ⟨true, fun _ => none⟩⟩,
      ⟨true, [⟨42, "https://example.com/page", "http://localhost:8080/87EJpBo", 0, 10, 0, 0,
        [], [], [], [], []⟩]⟩⟩
    "87EJpBo" "India" "Mumbai" "Mobile" "Android" "Chrome" 100 101 [] []
    ⟨42, "https://example.com/page", "http://localhost:8080/87EJpBo", 0, 10, 0, 0,
      [], [], [], [], []⟩
    rfl rfl (by simp) (by decide)
  ⟨link', h, hc⟩

end domains

/-! ## Deletion -/

namespace domains

theorem eraseP_of_all_false (p : dtos.ShortenedURL → Bool) :
    ∀ (l : List dtos.ShortenedURL), (∀ d ∈ l, p d = false) →
      l.eraseP p = l ∧ l.any p = false
  | [], _ => ⟨rfl, rfl⟩
  | x :: xs, h => by
    have hx : p x = false := h x (List.mem_cons_self _ _)
    have ih := eraseP_of_all_false p xs (fun d hd => h d (List.mem_cons_of_mem _ hd))
    simp [List.eraseP_cons, hx, ih.1, ih.2]

theorem find?_of_unique (p : dtos.ShortenedURL → Bool) (link : dtos.ShortenedURL)
    (hlink : p link = true) :
    ∀ (l : List dtos.ShortenedURL), link ∈ l → (∀ d ∈ l, p d = true → d = link) →
      l.find? p = some link
  | [], hmem, _ => absurd hmem (List.not_mem_nil link)
  | x :: xs, hmem, huniq => by
    cases hx : p x
    · have hne : link ≠ x := fun h => by rw [h, hx] at hlink; exact Bool.false_ne_true hlink
      have hmem' : link ∈ xs := by
        rcases List.mem_cons.mp hmem with h | h
        · exact absurd h hne
        · exact h
      simp only [List.find?, hx]
      exact find?_of_unique p link hlink xs hmem'
        (fun d hd => huniq d (List.mem_cons_of_mem _ hd))
    · have hxl : x = link := huniq x (List.mem_cons_self _ _) hx
      rw [hxl]
      simp only [List.find?, hlink]

theorem handleDelete_redisStore (s : UrlShortnerService) (chatID : Int) (shortURL : String) :
    (HandleDelete s chatID shortURL).1.redisStore = s.redisStore := by
  unfold HandleDelete
  split
  · rfl
  · split
    · rfl
    · split <;> rfl

/-- C7, amended. For a link whose short URL no other stored link carries, a delete request
for that short URL issued by a chat that does not own the link deletes nothing: the reply
is not the success reply, the service state is unchanged, and the code of the link resolves
to its original URL afterwards (from the store, or from a cache entry that holds that
URL). -/
theorem handleDelete_non_owner (s : UrlShortnerService) (link : dtos.ShortenedURL)
    (ownerB : Int)
    (hmem : link ∈ s.Client.urls)
    (howner : link.ChatID ≠ ownerB)
    (huniq : ∀ d ∈ s.Client.urls, d.Shortened = link.Shortened → d = link) :
    (HandleDelete s ownerB link.Shortened).1 = s ∧
    (HandleDelete s ownerB link.Shortened).2 ≠ .deleted ∧
    link ∈ (HandleDelete s ownerB link.Shortened).1.Client.urls ∧
    ∀ (shortID : String) (c : Request) (now : Time),
      link.Shortened = baseURL ++ shortID → s.Client.reachable = true →
      (cachedURL s shortID now = none ∨ cachedURL s shortID now = some link.Original) →
      (RedirectShortURL (HandleDelete s ownerB link.Shortened).1 shortID c now).response
        = .redirect 302 link.Original := by
  have hnone : ∀ d ∈ s.Client.urls,
      mongo.Filter.matches ⟨some link.Shortened, some ownerB⟩ d = false := by
    intro d hd
    by_cases hsh : d.Shortened = link.Shortened
    · have hd' := huniq d hd hsh
      simp [mongo.Filter.matches, hd', howner]
    · simp [mongo.Filter.matches, hsh]
  have herase := eraseP_of_all_false _ s.Client.urls hnone
  have hstate : (HandleDelete s ownerB link.Shortened).1 = s ∧
      (HandleDelete s ownerB link.Shortened).2 ≠ .deleted := by
    unfold HandleDelete
    by_cases he : link.Shortened = ""
    · simp [he]
    · simp only [he, if_false, mongo.DeleteOne]
      cases hr : s.Client.reachable
      · simp
      · simp [herase.1, herase.2, ← hr]
  refine ⟨hstate.1, hstate.2, by rw [hstate.1]; exact hmem, ?_⟩
  intro shortID c now hshort hreach hcache
  rw [hstate.1, redirectShortURL_cases]
  have hstored : storedLink s shortID = some link := by
    unfold storedLink
    rw [hreach, if_pos rfl]
    refine find?_of_unique _ link (decide_eq_true hshort) _ hmem ?_
    intro d hd hp
    exact huniq d hd ((of_decide_eq_true hp).trans hshort.symm)
  rcases hcache with h | h
  · rw [h, hstored]
  · rw [h]

/-- Chat 7 asks to delete the link of chat 42. -/
theorem handleDelete_non_owner_witness :
    (HandleDelete sampleService 7 sampleLink.Shortened).1 = sampleService ∧
    (HandleDelete sampleService 7 sampleLink.Shortened).2 ≠ .deleted :=
  have h := handleDelete_non_owner sampleService sampleLink 7
    (by simp [sampleService]) (by decide)
    (by intro d hd _; simpa [sampleService] using hd)
  ⟨h.1, h.2.1⟩

/-- C8, on the code: the owner deletes `sampleLink` while the cache holds its URL.  The
delete succeeds and empties the store, the cache entry stays, and the code still redirects
to the URL of the deleted link instead of answering 404. -/
theorem handleDelete_leaves_cache_entry :
    (HandleDelete cachedService 42 sampleLink.Shortened).2 = .deleted ∧
    (HandleDelete cachedService 42 sampleLink.Shortened).1.Client.urls = [] ∧
    cachedURL (HandleDelete cachedService 42 sampleLink.Shortened).1 "87EJpBo" 20
      = some "https://example.com/page" ∧
    (RedirectShortURL (HandleDelete cachedService 42 sampleLink.Shortened).1 "87EJpBo"
      sampleRequest 20).response = .redirect 302 "https://example.com/page" := by
  refine ⟨by decide, by decide, by decide, by decide⟩

/-! ## The geolocation lookup -/

theorem extractUserMetadata_of_error (w : World) (ip userAgent : String) (e : Err)
    (h : GetIPInfo w ip = .error e) : ExtractUserMetadata w ip userAgent = .exited e := by
  simp only [ExtractUserMetadata, h]

/-- C9, on the code: when the geolocation request fails, `ExtractUserMetadata` ends the
process instead of returning "Unknown" for country and city, and `ProcessClickStats` never
reaches `UpdateClickStats`: no click is recorded. -/
theorem processClickStats_exits_on_lookup_error :
    GetIPInfo offlineWorld sampleRequest.ClientIP = .error .network ∧
    ExtractUserMetadata offlineWorld sampleRequest.ClientIP sampleRequest.UserAgent
      = .exited .network ∧
    ProcessClickStats offlineWorld sampleService "87EJpBo" sampleRequest 100 101
      = .exited .network :=
  ⟨rfl, rfl, rfl⟩

/-! ## Cache-aside -/

/-- The only caller of `GenerateShortURL` never stores an empty original URL. -/
theorem handleShorten_urls (s : UrlShortnerService) (chatID : Int) (url : String) (now : Time) :
    (HandleShorten s chatID url now).1.Client.urls = s.Client.urls ∨
    ∃ d, (HandleShorten s chatID url now).1.Client.urls = s.Client.urls ++ [d] ∧
      d.Original = url ∧ url ≠ "" := by
  unfold HandleShorten
  by_cases hu : url = ""
  · left
    rw [if_pos hu]
  · rw [if_neg hu]
    unfold GenerateShortURL mongo.InsertOne
    split
    · left
      rename_i h
      split at h
      · rw [← (Prod.mk.inj h).1]
      · cases hr : s.Client.reachable <;> rw [hr] at h <;> simp at h
        rw [← h.1]
    · rename_i h
      split at h
      · simp at h
      · cases hr : s.Client.reachable <;> rw [hr] at h <;> simp at h
        right
        rw [← h.1]
        exact ⟨_, rfl, rfl, hu⟩

theorem set_ok (rs rs' : redisstore.RedisService) (key value : String) (expiration : Nat)
    (now : Time) (h : rs.Set key value expiration now = (rs', none)) :
    rs'.Client.reachable = true ∧
    rs'.Client.entries key
      = some ⟨value, if expiration = 0 then none else some (now + expiration)⟩ := by
  unfold redisstore.RedisService.Set redis.Set at h
  cases hr : rs.Client.reachable
  · rw [hr] at h
    simp at h
  · rw [hr] at h
    simp only [if_true, Prod.mk.injEq, and_true] at h
    rw [← h]
    simp

/-- C10. After a resolve that missed the cache and hit the store, once the cache write it
started has been applied at instant `t₁`, every resolve of the same code before the entry
expires (24 hours after `t₁`) gives the same redirect from the cache, whatever the store
then holds, and without querying it.  The URL of a link is not the empty string. -/
theorem redirectShortURL_after_cache_fill (s : UrlShortnerService) (shortID url : String)
    (c c' : Request) (now t₁ t₂ : Time) (rs' : redisstore.RedisService)
    (hfirst : RedirectShortURL s shortID c now =
      ⟨.redirect 302 url, true,
        [.processClickStats shortID c, .cacheSet shortID url (24 * Hour)]⟩)
    (hset : s.redisStore.Set shortID url (24 * Hour) t₁ = (rs', none))
    (hurl : url ≠ "")
    (hlive : t₂ < t₁ + 24 * Hour) :
    ∀ db : mongo.Client,
      (RedirectShortURL ⟨rs', db⟩ shortID c' t₂).response
        = (RedirectShortURL s shortID c now).response ∧
      (RedirectShortURL ⟨rs', db⟩ shortID c' t₂).storeQueried = false ∧
      (RedirectShortURL ⟨rs', db⟩ shortID c' t₂).spawned = [.processClickStats shortID c'] := by
  intro db
  obtain ⟨hr, he⟩ := set_ok _ _ _ _ _ _ hset
  have hne : (24 * Hour = 0) = False := by simp [Hour]
  have hcached : cachedURL ⟨rs', db⟩ shortID t₂ = some url := by
    unfold cachedURL
    simp only [hr, he, hne, if_true, if_false]
    rw [if_pos ⟨hlive, hurl⟩]
  rw [hfirst, redirectShortURL_cases, hcached]
  exact ⟨rfl, rfl, rfl⟩

/-- The first resolve of `87EJpBo` reads the store; after the cache write at instant 30 a
resolve at instant 40 is served from the cache, here with a store that no longer answers. -/
theorem redirectShortURL_after_cache_fill_witness :
    (RedirectShortURL
      ⟨(sampleService.redisStore.Set "87EJpBo" "https://example.com/page" (24 * Hour) 30).1,
        ⟨false, []⟩⟩ "87EJpBo" sampleRequest 40).response
      = (RedirectShortURL sampleService "87EJpBo" sampleRequest 20).response ∧
    (RedirectShortURL
      ⟨(sampleService.redisStore.Set "87EJpBo" "https://example.com/page" (24 * Hour) 30).1,
        ⟨false, []⟩⟩ "87EJpBo" sampleRequest 40).storeQueried = false ∧
    (RedirectShortURL
      ⟨(sampleService.redisStore.Set "87EJpBo" "https://example.com/page" (24 * Hour) 30).1,
        ⟨false, []⟩⟩ "87EJpBo" sampleRequest 40).spawned
      = [.processClickStats "87EJpBo" sampleRequest] :=
  redirectShortURL_after_cache_fill sampleService "87EJpBo" "https://example.com/page"
    sampleRequest sampleRequest 20 30 40 _ (by decide) rfl (by decide) (by decide) ⟨false, []⟩

end domains

/-! ## Failures of shorten -/

namespace domains

/-- C11. If the counter increment fails, `GenerateShortID` returns that error with an empty
code, and `GenerateShortURL` returns the same error with an empty result and leaves the
store as it was; and if the insert into the store fails, `GenerateShortURL` returns that
error with an empty result, and the store holds the links it held. -/
theorem generateShortURL_failures (s : UrlShortnerService) (chatID : Int) (u : String)
    (now : Time) :
    (∀ (c : redis.Client) (e : Err),
      redis.Incr s.redisStore.Client s.redisStore.Config.RedisCounterKey now = (c, .error e) →
      (utils.GenerateShortID s.redisStore now).2 = ("", some e) ∧
      (GenerateShortURL s chatID u now).2 = ("", some e) ∧
      (GenerateShortURL s chatID u now).1.Client = s.Client) ∧
    (∀ (rs : redisstore.RedisService) (shortID : String) (db : mongo.Client) (e : Err),
      utils.GenerateShortID s.redisStore now = (rs, (shortID, none)) →
      mongo.InsertOne s.Client
        ⟨chatID, u, baseURL ++ shortID, 0, now, 0, 0, [], [], [], [], []⟩ = (db, some e) →
      (GenerateShortURL s chatID u now).2 = ("", some e) ∧
      (GenerateShortURL s chatID u now).1.Client.urls = s.Client.urls) := by
  constructor
  · intro c e hincr
    have hid : utils.GenerateShortID s.redisStore now
        = ({ s.redisStore with Client := c }, ("", some e)) := by
      simp only [utils.GenerateShortID, hincr]
    refine ⟨by rw [hid], ?_, ?_⟩ <;> simp only [GenerateShortURL, hid]
  · intro rs shortID db e hid hins
    have hdb : db.urls = s.Client.urls := by
      unfold mongo.InsertOne at hins
      cases hr : s.Client.reachable
      · rw [hr] at hins
        simp only [Bool.false_eq_true, if_false, Prod.mk.injEq] at hins
        rw [← hins.1]
      · rw [hr] at hins
        simp at hins
    constructor <;> simp only [GenerateShortURL, hid, hins, hdb]

set_option maxRecDepth 1000000 in
/-- A keyspace that does not answer, and a store that does not answer. -/
theorem generateShortURL_failures_witness :
    ((utils.GenerateShortID counterDownService.redisStore 10).2 = ("", some .redisUnavailable) ∧
      (GenerateShortURL counterDownService 42 "https://example.com/page" 10).2
        = ("", some .redisUnavailable) ∧
      (GenerateShortURL counterDownService 42 "https://example.com/page" 10).1.Client
        = counterDownService.Client) ∧
    ((GenerateShortURL storeDownService 42 "https://example.com/page" 10).2
        = ("", some .mongoUnavailable) ∧
      (GenerateShortURL storeDownService 42 "https://example.com/page" 10).1.Client.urls
        = storeDownService.Client.urls) :=
  ⟨(generateShortURL_failures counterDownService 42 "https://example.com/page" 10).1
      _ .redisUnavailable rfl,
    (generateShortURL_failures storeDownService 42 "https://example.com/page" 10).2
      _ "87EJpBo" _ .mongoUnavailable (by rfl) rfl⟩

end domains

/-! ## Clicks side by side -/

namespace domains

/-- A call that takes its two steps with no other step in between is `UpdateClickStats`. -/
theorem stepClick_twice (s : UrlShortnerService) (shortID : String) (call : ClickCall) :
    stepClick shortID (stepClick shortID s.Client call .start).1 call
        (stepClick shortID s.Client call .start).2
      = ((UpdateClickStats s shortID call.country call.city call.device call.os call.browser
            call.now₁ call.now₂).1.Client,
          .returned (UpdateClickStats s shortID call.country call.city call.device call.os
            call.browser call.now₁ call.now₂).2) :=
  rfl

theorem countP_set_isReturned (phases : List ClickPhase) (i : Nat) (old new : ClickPhase)
    (h : phases[i]? = some old) :
    (phases.set i new).countP ClickPhase.isReturned + (if old.isReturned then 1 else 0)
      = phases.countP ClickPhase.isReturned + (if new.isReturned then 1 else 0) := by
  obtain ⟨hi, hget⟩ := List.getElem?_eq_some_iff.mp h
  have hle : (if phases[i].isReturned = true then 1 else 0) ≤ phases.countP ClickPhase.isReturned :=
    List.boole_getElem_le_countP _ _ _ hi
  rw [List.countP_set _ _ _ _ hi, hget] at *
  omega

theorem runClicks_cons (shortID : String) (calls : List ClickCall) (i : Nat) (rest : List Nat)
    (db : mongo.Client) (phases : List ClickPhase) (call : ClickCall) (phase : ClickPhase)
    (hcall : calls[i]? = some call) (hph : phases[i]? = some phase) :
    runClicks shortID calls (i :: rest) (db, phases)
      = runClicks shortID calls rest
          ((stepClick shortID db call phase).1, phases.set i (stepClick shortID db call phase).2) := by
  simp only [runClicks, hcall, hph]

theorem runClicks_skip (shortID : String) (calls : List ClickCall) (i : Nat) (rest : List Nat)
    (db : mongo.Client) (phases : List ClickPhase)
    (h : calls[i]? = none ∨ phases[i]? = none) :
    runClicks shortID calls (i :: rest) (db, phases)
      = runClicks shortID calls rest (db, phases) := by
  rcases h with h | h
  · simp only [runClicks, h]
  · cases hc : calls[i]? <;> simp only [runClicks, h, hc]

/-- What every interleaving keeps: the store answers, the link is still the first one under
its short URL, and its click counter has grown by the number of calls that have returned. -/
theorem runClicks_counter (shortID : String) (calls : List ClickCall)
    (pre post : List dtos.ShortenedURL) (link : dtos.ShortenedURL)
    (hpre : ∀ d ∈ pre, d.Shortened ≠ baseURL ++ shortID) :
    ∀ (schedule : List Nat) (phases : List ClickPhase) (cur : dtos.ShortenedURL),
      cur.Shortened = baseURL ++ shortID →
      cur.Clicks = link.Clicks + (phases.countP ClickPhase.isReturned : Nat) →
      ∃ cur', (runClicks shortID calls schedule (⟨true, pre ++ cur :: post⟩, phases)).1
          = ⟨true, pre ++ cur' :: post⟩ ∧
        cur'.Shortened = baseURL ++ shortID ∧
        cur'.Clicks = link.Clicks +
          (((runClicks shortID calls schedule (⟨true, pre ++ cur :: post⟩, phases)).2.countP
            ClickPhase.isReturned : Nat) : Int) ∧
        (runClicks shortID calls schedule (⟨true, pre ++ cur :: post⟩, phases)).2.length
          = phases.length
  | [], phases, cur, hs, hc => ⟨cur, rfl, hs, hc, rfl⟩
  | i :: rest, phases, cur, hs, hc => by
    have hp : ∀ d ∈ pre, mongo.Filter.matches ⟨some (baseURL ++ shortID), none⟩ d = false := by
      intro d hd
      rw [matches_shortened]
      exact decide_eq_false (hpre d hd)
    have hl : mongo.Filter.matches ⟨some (baseURL ++ shortID), none⟩ cur = true := by
      rw [matches_shortened]
      exact decide_eq_true hs
    cases hcall : calls[i]? with
    | none =>
      rw [runClicks_skip _ _ _ _ _ _ (Or.inl hcall)]
      exact runClicks_counter shortID calls pre post link hpre rest phases cur hs hc
    | some call =>
      cases hph : phases[i]? with
      | none =>
        rw [runClicks_skip _ _ _ _ _ _ (Or.inr hph)]
        exact runClicks_counter shortID calls pre post link hpre rest phases cur hs hc
      | some phase =>
        have hcount := countP_set_isReturned phases i phase
        rw [runClicks_cons _ _ _ _ _ _ call phase hcall hph]
        cases phase with
        | start =>
          simp only [stepClick]
          have h1 := hcount (.looked (mongo.FindOne ⟨true, pre ++ cur :: post⟩
            ⟨some (baseURL ++ shortID), none⟩)) hph
          simp only [ClickPhase.isReturned, Bool.false_eq_true, if_false, Nat.add_zero] at h1
          obtain ⟨cur', e1, e2, e3, e4⟩ := runClicks_counter shortID calls pre post link hpre
            rest (phases.set i (.looked (mongo.FindOne ⟨true, pre ++ cur :: post⟩
              ⟨some (baseURL ++ shortID), none⟩))) cur hs (by rw [h1]; exact hc)
          exact ⟨cur', e1, e2, e3, by rw [e4, List.length_set]⟩
        | looked found =>
          have h1 := hcount (.returned none) hph
          simp only [ClickPhase.isReturned, Bool.false_eq_true, if_false, Nat.add_zero,
            if_true] at h1
          have hstep : stepClick shortID ⟨true, pre ++ cur :: post⟩ call (.looked found)
              = (⟨true, pre ++ (clickUpdate found call.country call.city call.device call.os
                    call.browser call.now₁ call.now₂).apply cur :: post⟩, .returned none) := by
            simp only [stepClick, mongo.UpdateOne, if_true,
              updateFirst_first_match _ _ cur post hl pre hp]
          simp only [hstep]
          obtain ⟨cur', e1, e2, e3, e4⟩ := runClicks_counter shortID calls pre post link hpre
            rest (phases.set i (.returned none))
            ((clickUpdate found call.country call.city call.device call.os
              call.browser call.now₁ call.now₂).apply cur) hs
            (by
              rw [h1]
              show cur.Clicks + 1 = _
              rw [hc]
              push_cast
              ring)
          exact ⟨cur', e1, e2, e3, by rw [e4, List.length_set]⟩
        | returned err =>
          have h1 := hcount (.returned err) hph
          simp only [ClickPhase.isReturned, if_true, Nat.add_right_cancel_iff] at h1
          simp only [stepClick]
          obtain ⟨cur', e1, e2, e3, e4⟩ := runClicks_counter shortID calls pre post link hpre
            rest (phases.set i (.returned err)) cur hs (by rw [h1]; exact hc)
          exact ⟨cur', e1, e2, e3, by rw [e4, List.length_set]⟩

/-- No increment is lost: under every interleaving of `N` calls on a link, once all of them
have returned the click counter of the link has grown by `N`. -/
theorem runClicks_counter_complete (shortID : String) (calls : List ClickCall)
    (pre post : List dtos.ShortenedURL) (link : dtos.ShortenedURL)
    (hpre : ∀ d ∈ pre, d.Shortened ≠ baseURL ++ shortID)
    (hlink : link.Shortened = baseURL ++ shortID) (schedule : List Nat)
    (hall : (runClicks shortID calls schedule
      (⟨true, pre ++ link :: post⟩, List.replicate calls.length .start)).2.all
        ClickPhase.isReturned = true) :
    ∃ link', (runClicks shortID calls schedule
        (⟨true, pre ++ link :: post⟩, List.replicate calls.length .start)).1
          = ⟨true, pre ++ link' :: post⟩ ∧
      link'.Clicks = link.Clicks + calls.length := by
  have h0 : (List.replicate calls.length ClickPhase.start).countP ClickPhase.isReturned = 0 := by
    rw [List.countP_eq_zero]
    intro p hp
    rw [(List.mem_replicate.mp hp).2]
    simp [ClickPhase.isReturned]
  obtain ⟨cur', e1, _, e3, e4⟩ := runClicks_counter shortID calls pre post link hpre schedule
    (List.replicate calls.length .start) link hlink (by rw [h0]; simp)
  refine ⟨cur', e1, ?_⟩
  rw [e3]
  have hcount : (runClicks shortID calls schedule
      (⟨true, pre ++ link :: post⟩, List.replicate calls.length .start)).2.countP
        ClickPhase.isReturned = calls.length := by
    have hlen := e4
    rw [List.length_replicate] at hlen
    exact (List.countP_eq_length.mpr (fun p hp => List.all_eq_true.mp hall p hp)).trans hlen
  rw [hcount]

end domains

namespace domains

/-- C12, on the code: two clicks on the never-clicked `sampleLink`, both lookups before
both updates.  Both calls find first-click unset, both set it, and the update applied last
wins: both calls return, the counter is 2, and first-click is 103, the latest of the four
clock readings, where the calls one after the other leave 102. -/
theorem runClicks_first_click_overwritten :
    (runClicks "87EJpBo" sampleCalls [0, 1, 0, 1]
        (sampleService.Client, [.start, .start])).1.urls
      = [⟨42, "https://example.com/page", "http://localhost:8080/87EJpBo", 2, 10, 103, 101,
          ["India", "USA"], ["Mumbai", "New York"], ["Mobile", "Desktop"],
          ["Android", "Windows"], ["Chrome", "Firefox"]⟩] ∧
    (runClicks "87EJpBo" sampleCalls [0, 1, 0, 1]
        (sampleService.Client, [.start, .start])).2.map ClickPhase.isReturned
      = [true, true] ∧
    (runClicks "87EJpBo" sampleCalls [0, 0, 1, 1]
        (sampleService.Client, [.start, .start])).1.urls.map (fun d => d.FirstClick)
      = [102] ∧
    sampleCalls.map (fun call => (call.now₁, call.now₂)) = [(100, 102), (101, 103)] := by
  refine ⟨by decide, by decide, by decide, by decide⟩

/-! ## First click and last click -/

/-- The first click on a link that was never clicked stores the first clock reading as
last-click and the second as first-click: when the clock has advanced between the two
readings, last-click is earlier than first-click. -/
theorem updateClickStats_first_click (s : UrlShortnerService)
    (shortID country city device os browser : String) (t₁ t₂ : Time)
    (pre post : List dtos.ShortenedURL) (link : dtos.ShortenedURL)
    (hreach : s.Client.reachable = true)
    (hurls : s.Client.urls = pre ++ link :: post)
    (hpre : ∀ d ∈ pre, d.Shortened ≠ baseURL ++ shortID)
    (hlink : link.Shortened = baseURL ++ shortID)
    (hzero : link.FirstClick = 0) (hlt : t₁ < t₂) :
    ∃ link', UpdateClickStats s shortID country city device os browser t₁ t₂ =
        ({ s with Client := ⟨true, pre ++ link' :: post⟩ }, none) ∧
      link'.LastClick = t₁ ∧ link'.FirstClick = t₂ ∧ link'.LastClick < link'.FirstClick := by
  have hf : ((clickUpdate (.ok link) country city device os browser t₁ t₂).apply
      link).FirstClick = t₂ := by
    simp [mongo.Update.apply, clickUpdate, Time.IsZero, hzero]
  refine ⟨_, updateClickStats_eq s shortID country city device os browser t₁ t₂ pre post link
    hreach hurls hpre hlink, rfl, hf, ?_⟩
  rw [hf]
  exact hlt

/-- A click on a link whose first-click is set and not later than the first clock reading of
the call keeps first-click and leaves it not later than last-click. -/
theorem updateClickStats_later_click (s : UrlShortnerService)
    (shortID country city device os browser : String) (t₁ t₂ : Time)
    (pre post : List dtos.ShortenedURL) (link : dtos.ShortenedURL)
    (hreach : s.Client.reachable = true)
    (hurls : s.Client.urls = pre ++ link :: post)
    (hpre : ∀ d ∈ pre, d.Shortened ≠ baseURL ++ shortID)
    (hlink : link.Shortened = baseURL ++ shortID)
    (hset : link.FirstClick ≠ 0) (hle : link.FirstClick ≤ t₁) :
    ∃ link', UpdateClickStats s shortID country city device os browser t₁ t₂ =
        ({ s with Client := ⟨true, pre ++ link' :: post⟩ }, none) ∧
      link'.FirstClick = link.FirstClick ∧ link'.FirstClick ≤ link'.LastClick := by
  have hf : ((clickUpdate (.ok link) country city device os browser t₁ t₂).apply
      link).FirstClick = link.FirstClick := by
    simp [mongo.Update.apply, clickUpdate, Time.IsZero, hset]
  refine ⟨_, updateClickStats_eq s shortID country city device os browser t₁ t₂ pre post link
    hreach hurls hpre hlink, hf, ?_⟩
  rw [hf]
  exact hle

set_option maxRecDepth 1000000 in
/-- C13, on the code: a link is created by `GenerateShortURL` and clicked once, the clock
reading 100 when the update document is built and 101 after the lookup.  The link then has
last-click 100 and first-click 101: first-click is set and later than last-click. -/
theorem first_click_later_than_last_click :
    (GenerateShortURL freshService 42 "https://example.com/page" 10).2
      = (baseURL ++ "87EJpBo", none) ∧
    (UpdateClickStats (GenerateShortURL freshService 42 "https://example.com/page" 10).1
        "87EJpBo" "India" "Mumbai" "Mobile" "Android" "Chrome" 100 101).1.Client.urls
      = [⟨42, "https://example.com/page", "http://localhost:8080/87EJpBo", 1, 10, 101, 100,
          ["India"], ["Mumbai"], ["Mobile"], ["Android"], ["Chrome"]⟩] ∧
    ¬ ((101 : Time) ≤ 100) := by
  refine ⟨by decide, by decide, by decide⟩

end domains

/-! ## The one observation time of a click -/

namespace domains

/-- C5, on the code: the first click on the never-clicked `sampleLink`, the clock reading
100 when the update document is built and 101 after the lookup.  The counter grows by 1 and
short URL, original URL, owner and creation time stay, but last-click and first-click are
two different readings, 100 and 101, not one observation time. -/
theorem updateClickStats_two_clock_readings :
    sampleService.Client.urls = [sampleLink] ∧
    sampleLink.FirstClick.IsZero = true ∧
    (UpdateClickStats sampleService "87EJpBo" "India" "Mumbai" "Mobile" "Android" "Chrome"
        100 101).1.Client.urls
      = [⟨42, "https://example.com/page", "http://localhost:8080/87EJpBo", 1, 10, 101, 100,
          ["India"], ["Mumbai"], ["Mobile"], ["Android"], ["Chrome"]⟩] ∧
    (100 : Time) ≠ 101 := by
  refine ⟨by decide, by decide, by decide, by decide⟩

/-! ## Two links under one short URL -/

set_option maxRecDepth 1000000 in
/-- C7, as stated, fails when the requesting chat has a link of its own under the same
short URL.  The store holds `sampleLink` of chat 42 and the counter starts afresh, so a
shorten by chat 7 stores a second link under `87EJpBo`; the delete request of chat 7 for
that short URL is answered with the success reply and removes a document from the store.
The link of chat 42 stays. -/
theorem handleDelete_non_owner_counterexample :
    (GenerateShortURL sampleService 7 "https://example.org/other" 20).2
      = (sampleLink.Shortened, none) ∧
    (GenerateShortURL sampleService 7 "https://example.org/other" 20).1.Client.urls
      = [sampleLink,
          ⟨7, "https://example.org/other", "http://localhost:8080/87EJpBo", 0, 20, 0, 0,
            [], [], [], [], []⟩] ∧
    sampleLink.ChatID ≠ 7 ∧
    (HandleDelete (GenerateShortURL sampleService 7 "https://example.org/other" 20).1 7
      sampleLink.Shortened).2 = .deleted ∧
    (HandleDelete (GenerateShortURL sampleService 7 "https://example.org/other" 20).1 7
      sampleLink.Shortened).1.Client.urls = [sampleLink] ∧
    (HandleDelete (GenerateShortURL sampleService 7 "https://example.org/other" 20).1 7
      sampleLink.Shortened).1.Client.urls
      ≠ (GenerateShortURL sampleService 7 "https://example.org/other" 20).1.Client.urls := by
  refine ⟨by decide, by decide, by decide, by decide, by decide, by decide⟩

end domains
